import Mathlib

/-!
Verification of the Ram-Tester firmware's 16-pin DRAM test engine
(`Software/4.0.6/16Pin.cpp` together with the shared helpers of
`Software/4.0.5/common.cpp` and `Software/4.1.0/common.h`).

The C code is shallowly embedded: 8/16-bit machine integers become `Nat`
with explicit masking where the C code masks, the DRAM cell array becomes
an explicit function `Mem` from (row, column) pairs to bits, and the
non-returning `error()` reporter becomes the `Except.error` constructor
carrying the `(code, kind, row, col)` argument tuple of the C call.
-/

/-! ## Memory model

A simulated DRAM cell array: one bit per (row, column) address.  `memUpd`
is pointwise functional update (the effect of one write cycle). -/

abbrev Mem := Nat × Nat → Bool

def memUpd (m : Mem) (k : Nat × Nat) (v : Bool) : Mem :=
  fun x => if x = k then v else m x

theorem memUpd_same (m : Mem) (k : Nat × Nat) (v : Bool) : memUpd m k v k = v := by
  simp [memUpd]

theorem memUpd_ne (m : Mem) {k x : Nat × Nat} (v : Bool) (h : x ≠ k) :
    memUpd m k v x = m x := by
  simp [memUpd, h]

/-! ## Shared helpers from common.h / common.cpp (4.0.5 / 4.1.0)

`pattern`, `rotate_left`, `mix8`, `countBits`, `randomTable` generation and
inversion, translated from the C source. -/

/-- Test patterns, `common.cpp`: `const uint8_t pattern[] = {0x00, 0xff, 0xaa, 0x55, 0xaa, 0x55}`. -/
def pattern : List Nat := [0x00, 0xff, 0xaa, 0x55, 0xaa, 0x55]

def patternAt (patNr : Nat) : Nat := pattern.getD patNr 0

/-- 8-bit left rotation (`rotate_left` in common.h, inline asm `lsl` + `adc`):
bit 7 rotates into bit 0. Callers always pass a value < 256. -/
def rotate_left (val : Nat) : Nat := ((val <<< 1) &&& 0xFF) ||| (val >>> 7)

/-- Mixing function for random-table access, `common.h`:
`uint16_t v = col ^ (row + (row >> 4)); return (uint8_t)(v ^ (v >> 8));`.
All intermediate values are reduced as the 16- and 8-bit C types are. -/
def mix8 (col row : Nat) : Nat :=
  let v := (col ^^^ (row + (row >>> 4))) &&& 0xFFFF
  (v ^^^ (v >>> 8)) &&& 0xFF

/-- Loop body of `countBits`, with structural fuel so that the function
computes by kernel reduction.  `fuel = value` always suffices because the
value shrinks strictly on every shift. -/
def countBitsAux (fuel value : Nat) : Nat :=
  match fuel with
  | 0 => 0
  | fuel + 1 => if value = 0 then 0 else countBitsAux fuel (value >>> 1) + 1

/-- Number of bits needed to represent `value` (`countBits` in common.h):
`while (value) { bits++; value >>= 1; }`. -/
def countBits (value : Nat) : Nat := countBitsAux value value

/-- One step of the LFSR in `generateRandomTable`:
`lfsr = (lfsr >> 1) ^ (-(lfsr & 1u) & 0xB400u);` (on a `uint16_t` value). -/
def lfsrStep (lfsr : Nat) : Nat :=
  (lfsr >>> 1) ^^^ (if lfsr &&& 1 = 1 then 0xB400 else 0)

/-- Entry `i` of the table produced by `generateRandomTable` (common.cpp):
`lfsr = 0xACE1u ^ (i * 0x3D)`, eight LFSR steps, then
`randomTable[i] = (lfsr ^ (lfsr >> 8)) & 0x0F`. -/
def generateRandomTable (i : Nat) : Nat :=
  let lfsr0 := (0xACE1 ^^^ (i * 0x3D)) &&& 0xFFFF
  let lfsr := lfsrStep^[8] lfsr0
  (lfsr ^^^ (lfsr >>> 8)) &&& 0x0F

/-- `invertRandomTable` (common.cpp): for every entry,
`randomTable[i] = (randomTable[i] & 0x0F) ^ 0x0F`.  The table state is
modelled as a function from index to entry. -/
def invertRandomTable (t : Nat → Nat) : Nat → Nat :=
  fun i => (t i &&& 0x0F) ^^^ 0x0F

/-- Expected pseudo-random byte for a cell, as recomputed during
verification: `randomTable[mix8(col, row)]` (16Pin.cpp, writeRow/checkRow). -/
def expectedRandom (t : Nat → Nat) (col row : Nat) : Nat := t (mix8 col row)

theorem and15_lt16 (x : Nat) : x &&& 0x0F < 16 :=
  Nat.lt_succ_of_le Nat.and_le_right

theorem invert_invert_of_lt16 : ∀ x < 16, ((x &&& 0x0F) ^^^ 0x0F) &&& 0x0F ^^^ 0x0F = x := by
  decide

theorem invert_entry_lt16 : ∀ x < 16, (x &&& 0x0F) ^^^ 0x0F < 16 := by
  decide

/-- Claim C7: the expected pseudo-random value `randomTable[mix8(col,row)]`
is a pure function of (col, row) and the table state — identical inputs give
the identical byte — and applying `invertRandomTable` twice restores every
entry of the table exactly (involution), given the invariant that all
entries are 4-bit values (which `generateRandomTable` establishes and
`invertRandomTable` preserves). -/
theorem claim_C7_random_determinism_involution :
    (∀ (t₁ t₂ : Nat → Nat) (c₁ c₂ r₁ r₂ : Nat), t₁ = t₂ → c₁ = c₂ → r₁ = r₂ →
      expectedRandom t₁ c₁ r₁ = expectedRandom t₂ c₂ r₂) ∧
    (∀ t : Nat → Nat, (∀ i, t i < 16) →
      ∀ i, invertRandomTable (invertRandomTable t) i = t i) := by
  constructor
  · intro t₁ t₂ c₁ c₂ r₁ r₂ ht hc hr
    rw [ht, hc, hr]
  · intro t ht i
    simpa [invertRandomTable] using invert_invert_of_lt16 (t i) (ht i)

/-- Witness for C7 at a concrete table state. -/
theorem claim_C7_witness :
    expectedRandom (fun _ => 3) 5 7 = expectedRandom (fun _ => 3) 5 7 ∧
    invertRandomTable (invertRandomTable (fun _ => 3)) 42 = 3 :=
  ⟨claim_C7_random_determinism_involution.1 _ _ 5 5 7 7 rfl rfl rfl,
   claim_C7_random_determinism_involution.2 (fun _ => 3) (fun _ => by norm_num) 42⟩

/-- Claim C10: after `generateRandomTable` every entry of the table is at
most 0x0F (upper nibble zero), and `invertRandomTable` preserves this
invariant, so every table state reachable during a test run consists of
4-bit values only. -/
theorem claim_C10_randomTable_nibble_invariant :
    (∀ i, generateRandomTable i < 16) ∧
    (∀ t : Nat → Nat, (∀ i, t i < 16) → ∀ i, invertRandomTable t i < 16) := by
  constructor
  · intro i
    exact and15_lt16 _
  · intro t ht i
    simpa [invertRandomTable] using invert_entry_lt16 (t i) (ht i)

/-- Witness for C10 at a concrete table state. -/
theorem claim_C10_witness :
    generateRandomTable 0 < 16 ∧ invertRandomTable (fun _ => 9) 0 < 16 :=
  ⟨claim_C10_randomTable_nibble_invariant.1 0,
   claim_C10_randomTable_nibble_invariant.2 (fun _ => 9) (fun _ => by norm_num) 0⟩

/-! ## Address translation for the 16-pin module (C6)

The 9-bit linear address is scattered over three ports.  From
`Software/4.0.6/16Pin.cpp`:

`GET_PB(a) = ((a & 0x0010)) | ((a & 0x0008) >> 1) | ((a & 0x0040) >> 6)`
`GET_PC(a) = ((a & 0x0001) << 4) | ((a & 0x0100) >> 8)`
`GET_PD(a) = ((a & 0x0080) >> 1) | ((a & 0x0020) << 2) | ((a & 0x0004) >> 2) | (a & 0x0002)`

`Software/3.0.1/16Pin.cpp` builds one combined 512-entry table from the
same three expressions (`MAP_COMBINED`); 4.0.6 splits them into a low
table (address bits A0-A4) and a high table (steps of 32) that
`setAddr16_Random` ORs together. -/

def GET_PB (a : Nat) : Nat :=
  (a &&& 0x0010) ||| ((a &&& 0x0008) >>> 1) ||| ((a &&& 0x0040) >>> 6)

def GET_PC (a : Nat) : Nat :=
  ((a &&& 0x0001) <<< 4) ||| ((a &&& 0x0100) >>> 8)

def GET_PD (a : Nat) : Nat :=
  ((a &&& 0x0080) >>> 1) ||| ((a &&& 0x0020) <<< 2) ||| ((a &&& 0x0004) >>> 2) ||| (a &&& 0x0002)

/-- The full translation of a linear address to the (PORTB, PORTC, PORTD)
address-bit pattern. -/
def translate16 (a : Nat) : Nat × Nat × Nat := (GET_PB a, GET_PC a, GET_PD a)

/-- The combined-table entry of 3.0.1's `MAP_COMBINED(a)` (portb, portc, portd). -/
def MAP_COMBINED (a : Nat) : Nat × Nat × Nat :=
  ((a &&& 0x0010) ||| ((a &&& 0x0008) >>> 1) ||| ((a &&& 0x0040) >>> 6),
   ((a &&& 0x0001) <<< 4) ||| ((a &&& 0x0100) >>> 8),
   ((a &&& 0x0080) >>> 1) ||| ((a &&& 0x0020) <<< 2) ||| ((a &&& 0x0004) >>> 2) ||| (a &&& 0x0002))

/-- 4.0.6's split-table combination in `setAddr16_Random`: low-table entry
for `a & 0x1F` ORed with high-table entry for `a >> 5` (whose entries are
the `GET_P*` values at multiples of 32). -/
def splitTranslate16 (a : Nat) : Nat × Nat × Nat :=
  (GET_PB (a &&& 0x1F) ||| GET_PB ((a >>> 5) <<< 5),
   GET_PC (a &&& 0x1F) ||| GET_PC ((a >>> 5) <<< 5),
   GET_PD (a &&& 0x1F) ||| GET_PD ((a >>> 5) <<< 5))

/-- Reverse translation: reassemble the linear address from the port bit
pattern.  This inverse does not appear in the firmware; it is the witness
that the scramble is injective, undoing each `GET_P*` bit placement. -/
def reverseTranslate16 (p : Nat × Nat × Nat) : Nat :=
  let pb := p.1
  let pc := p.2.1
  let pd := p.2.2
  ((pc >>> 4) &&& 1)                -- A0 from PC4
  ||| ((pd &&& 0x02))               -- A1 from PD1
  ||| ((pd &&& 0x01) <<< 2)         -- A2 from PD0
  ||| (((pb >>> 2) &&& 1) <<< 3)    -- A3 from PB2
  ||| (((pb >>> 4) &&& 1) <<< 4)    -- A4 from PB4
  ||| (((pd >>> 7) &&& 1) <<< 5)    -- A5 from PD7
  ||| ((pb &&& 1) <<< 6)            -- A6 from PB0
  ||| (((pd >>> 6) &&& 1) <<< 7)    -- A7 from PD6
  ||| ((pc &&& 1) <<< 8)            -- A8 from PC0

set_option maxRecDepth 8192 in
theorem reverse_translate16_id : ∀ a < 512, reverseTranslate16 (translate16 a) = a := by
  decide

set_option maxRecDepth 8192 in
theorem splitTranslate16_eq : ∀ a < 512, splitTranslate16 a = translate16 a := by
  decide

/-- Claim C6: over the valid 16-pin address range 0..511 the bit-scramble
(`GET_PB`/`GET_PC`/`GET_PD`, equivalently the 3.0.1 combined table and the
4.0.6 split tables) maps distinct addresses to distinct port patterns: a
reverse translation exists with `reverseTranslate16 (translate16 a) = a`,
hence the translation is injective (a bijection onto its range). -/
theorem claim_C6_translate16_bijective :
    (∀ a < 512, reverseTranslate16 (translate16 a) = a) ∧
    (∀ a < 512, ∀ b < 512, translate16 a = translate16 b → a = b) ∧
    (∀ a, MAP_COMBINED a = translate16 a) ∧
    (∀ a < 512, splitTranslate16 a = translate16 a) := by
  refine ⟨reverse_translate16_id, ?_, fun a => rfl, splitTranslate16_eq⟩
  intro a ha b hb h
  have h1 := reverse_translate16_id a ha
  have h2 := reverse_translate16_id b hb
  rw [← h1, ← h2, h]

/-- Witness for C6 at concrete addresses. -/
theorem claim_C6_witness :
    reverseTranslate16 (translate16 300) = 300 ∧
    (translate16 300 = translate16 300 → (300 : Nat) = 300) ∧
    MAP_COMBINED 77 = translate16 77 ∧
    splitTranslate16 301 = translate16 301 :=
  ⟨claim_C6_translate16_bijective.1 300 (by norm_num),
   claim_C6_translate16_bijective.2.1 300 (by norm_num) 300 (by norm_num),
   claim_C6_translate16_bijective.2.2.1 77,
   claim_C6_translate16_bijective.2.2.2 301 (by norm_num)⟩

/-! ## RAM type table (common.h / common.cpp)

The `RAM_Definition` structure and the `ramTypes[]` array, from
`Software/4.0.5/common.cpp`. -/

structure RAM_Definition where
  name : String
  mSRetention : Nat
  delayRows : Nat
  rows : Nat
  columns : Nat
  flags : Nat
  delays : List Nat
  writeTime : Nat
deriving DecidableEq

def RAM_FLAG_STATIC_COLUMN : Nat := 1
def RAM_FLAG_NIBBLE_MODE : Nat := 2
def RAM_FLAG_SMALL_TYPE : Nat := 4

def T_4164 : Nat := 0
def T_41256 : Nat := 1
def T_41257 : Nat := 2
def T_4416 : Nat := 3
def T_4464 : Nat := 4
def T_514256 : Nat := 5
def T_514258 : Nat := 6
def T_514400 : Nat := 7
def T_514402 : Nat := 8
def T_411000 : Nat := 9
def T_4116 : Nat := 10
def T_4816 : Nat := 11
def T_4027 : Nat := 12
def T_4532 : Nat := 13
def T_3732 : Nat := 14

def ramTypes : List RAM_Definition := [
  ⟨"4164", 4, 2, 256, 256, RAM_FLAG_SMALL_TYPE, [62, 61, 20, 20, 20, 20], 39⟩,
  ⟨"41256", 4, 1, 512, 512, 0, [125, 41, 41, 41, 41, 41], 75⟩,
  ⟨"41257", 4, 0, 512, 512, RAM_FLAG_NIBBLE_MODE, [0, 0, 0, 0, 0, 0], 0⟩,
  ⟨"4416", 4, 4, 256, 64, RAM_FLAG_SMALL_TYPE, [30, 30, 30, 30, 11, 11], 21⟩,
  ⟨"4464", 4, 1, 256, 256, 0, [122, 48, 48, 48, 48, 48], 77⟩,
  ⟨"514256", 4, 2, 512, 512, RAM_FLAG_SMALL_TYPE, [69, 68, 27, 27, 27, 27], 31⟩,
  ⟨"514258", 4, 2, 512, 512, RAM_FLAG_STATIC_COLUMN + RAM_FLAG_SMALL_TYPE, [69, 68, 27, 27, 27, 27], 31⟩,
  ⟨"514400", 16, 5, 1024, 1024, 0, [98, 98, 98, 98, 98, 16], 62⟩,
  ⟨"514402", 16, 5, 1024, 1024, RAM_FLAG_STATIC_COLUMN, [99, 98, 98, 98, 98, 14], 62⟩,
  ⟨"411000", 8, 1, 1024, 1024, 0, [244, 135, 135, 135, 135, 135], 255⟩,
  ⟨"4116", 2, 2, 128, 128, 0, [30, 30, 6, 6, 6, 6], 24⟩,
  ⟨"4816", 2, 2, 128, 128, 0, [30, 30, 7, 7, 7, 7], 24⟩,
  ⟨"4027", 2, 2, 64, 64, 0, [40, 40, 27, 27, 27, 27], 12⟩,
  ⟨"4532-NL3", 2, 1, 128, 256, RAM_FLAG_SMALL_TYPE, [54, 5, 5, 5, 5, 5], 50⟩,
  ⟨"4532-NL4", 2, 1, 128, 256, RAM_FLAG_SMALL_TYPE, [54, 5, 5, 5, 5, 5], 50⟩]

def ramDef (t : Nat) : RAM_Definition := ramTypes.getD t ⟨"", 0, 0, 0, 0, 0, [], 0⟩

/-! ## Error calls

`error(code, kind, row, col)` from common.cpp never returns; every call in
the embedded test engine becomes an `Except.error` carrying this record.
Row and column default to -1 in the C signature
(`void error(uint8_t code, uint8_t error, int16_t row = -1, int16_t col = -1)`). -/

structure ErrorCall where
  code : Nat
  kind : Nat
  row : Int
  col : Int
deriving DecidableEq

/-! ## Single-cell accesses and the aliasing chip model (C2, C5)

`write16Pin` / `read16Pin` (16Pin.cpp) access one bit at a (row, col)
address.  A simulated chip with address-line defects is modelled by a pair
of address maps: the physical cell actually accessed for a requested row
or column.  A missing or stuck address line collapses the corresponding
address bit; fully wired lines give the identity map. -/

structure AliasChip where
  mapRow : Nat → Nat
  mapCol : Nat → Nat

/-- `write16Pin(row, col, data)`: one RAS/CAS write cycle storing `data`
at the (physically decoded) cell. -/
def write16Pin (ch : AliasChip) (m : Mem) (row col : Nat) (data : Bool) : Mem :=
  memUpd m (ch.mapRow row, ch.mapCol col) data

/-- `read16Pin(row, col)`: one RAS/CAS read cycle returning the bit at the
(physically decoded) cell. -/
def read16Pin (ch : AliasChip) (m : Mem) (row col : Nat) : Bool :=
  m (ch.mapRow row, ch.mapCol col)

/-! ## Chip type sensing: sense41256_16Pin (C2) -/

/-- `sense41256_16Pin` (16Pin.cpp): probes address-line aliasing to
classify the chip.  Step 1 checks basic functionality (with a fallback
cell at column 192), step 2 probes row 0 vs row 256 (A8), step 3 probes
row 0 vs row 128 (row A7) and then column 0 vs column 128 (column A7).
Returns the detected type together with the final memory state. -/
def sense41256_16Pin (ch : AliasChip) (m0 : Mem) : Except ErrorCall (Nat × Mem) :=
  -- STEP 1: BASIC FUNCTIONALITY CHECK
  let m1 := write16Pin ch m0 0 0 false
  let step1 : Except ErrorCall Mem :=
    if read16Pin ch m1 0 0 ≠ false then
      let m2 := write16Pin ch m1 0 192 false
      if read16Pin ch m2 0 192 ≠ false then .error ⟨0, 0, -1, -1⟩
      else .ok m2
    else .ok m1
  match step1 with
  | .error e => .error e
  | .ok m2 =>
    -- STEP 2: TEST A8 LINE (4164 vs 41256)
    let m3 := write16Pin ch m2 0 0 false
    let m4 := write16Pin ch m3 256 0 true
    if read16Pin ch m4 0 0 = false then .ok (T_41256, m4)
    else
      -- STEP 3: TEST A7 ROW LINE (4164 vs 4816 vs 4532)
      let m5 := write16Pin ch m4 0 0 false
      let m6 := write16Pin ch m5 128 0 true
      if read16Pin ch m6 0 0 ≠ false then
        let m7 := write16Pin ch m6 0 0 false
        let m8 := write16Pin ch m7 0 128 true
        if read16Pin ch m8 0 0 = false then .ok (T_4532, m8)
        else .ok (T_4816, m8)
      else .ok (T_4164, m6)

/-- A 4164-family chip: address pin A8 does not exist, so bit 8 of any
requested row or column address is ignored (rows 0 and 256 alias); all
probe addresses are < 512, for which dropping bit 8 is reduction mod 256.
A7 and below are fully functional. -/
def chipNoA8 : AliasChip := ⟨fun r => r % 256, fun c => c % 256⟩

theorem sense_chipNoA8 (m : Mem) :
    (sense41256_16Pin chipNoA8 m).map Prod.fst = .ok T_4164 := by
  norm_num [sense41256_16Pin, write16Pin, read16Pin, chipNoA8, memUpd, T_4164,
    Prod.ext_iff, Except.map]

theorem sense_A8_distinct (mapR mapC : Nat → Nat) (m : Mem)
    (h : (mapR 256, mapC 0) ≠ (mapR 0, mapC 0)) :
    (sense41256_16Pin ⟨mapR, mapC⟩ m).map Prod.fst = .ok T_41256 := by
  have h2 : ¬(mapR 0 = mapR 256) := fun he => h (by rw [he])
  simp [sense41256_16Pin, write16Pin, read16Pin, memUpd, T_41256, h2, Except.map]

/-- Claim C2: a chip whose rows 0 and 256 alias (A8 not wired) while rows
0 and 128 stay distinct (A7 functional) is sensed as `T_4164`, not
`T_41256`; conversely whenever the re-read of row 0 after writing 0 to
row 0 and 1 to row 256 returns 0 — i.e. the two probe cells are
physically distinct — the sense routine returns `T_41256`. -/
theorem claim_C2_sense41256 :
    (∀ m : Mem, (sense41256_16Pin chipNoA8 m).map Prod.fst = .ok T_4164) ∧
    (∀ (mapR mapC : Nat → Nat) (m : Mem),
      (mapR 256, mapC 0) ≠ (mapR 0, mapC 0) →
      (sense41256_16Pin ⟨mapR, mapC⟩ m).map Prod.fst = .ok T_41256) :=
  ⟨sense_chipNoA8, sense_A8_distinct⟩

/-- Witness for C2: the fully wired (identity-mapped) chip senses as 41256. -/
theorem claim_C2_witness :
    (sense41256_16Pin chipNoA8 (fun _ => false)).map Prod.fst = .ok T_4164 ∧
    (sense41256_16Pin ⟨fun r => r, fun c => c⟩ (fun _ => false)).map Prod.fst = .ok T_41256 :=
  ⟨claim_C2_sense41256.1 (fun _ => false),
   claim_C2_sense41256.2 (fun r => r) (fun c => c) (fun _ => false) (by decide)⟩

/-! ## Address-line verification: checkAddressing_16Pin (C5) -/

/-- Fold a per-bit test over a list of address-bit indices, threading the
memory state and stopping at the first `error()` call (which never
returns in the C code). -/
def exceptFoldMem (f : Mem → Nat → Except ErrorCall Mem) :
    Mem → List Nat → Except ErrorCall Mem
  | m, [] => .ok m
  | m, b :: rest =>
    match f m b with
    | .ok m' => exceptFoldMem f m' rest
    | .error e => .error e

/-- One iteration of the row address line test in `checkAddressing_16Pin`:
write 0 to the base row, 1 to the peer row (only bit `b` set), read both
back; for `T_4532` the A7 row test is skipped.  A wrong read-back reports
`error(b, 1)`. -/
def rowBitTest (ch : AliasChip) (typeT : Nat) (m : Mem) (b : Nat) :
    Except ErrorCall Mem :=
  let base_row : Nat := 0
  let peer_row : Nat := 1 <<< b
  let m1 := write16Pin ch m base_row 0 false
  let m2 := write16Pin ch m1 peer_row 0 true
  let base_result := read16Pin ch m2 base_row 0
  let peer_result := read16Pin ch m2 peer_row 0
  -- T_4532: RAS A7 aliased — skip A7 row test
  if typeT = T_4532 ∧ b = 7 then .ok m2
  else if base_result ≠ false then .error ⟨b, 1, -1, -1⟩
  else if peer_result ≠ true then .error ⟨b, 1, -1, -1⟩
  else .ok m2

/-- One iteration of the column address line test: as `rowBitTest` but on
a fixed middle test row, with column errors reported as `error(b+16, 1)`. -/
def colBitTest (ch : AliasChip) (test_row : Nat) (m : Mem) (b : Nat) :
    Except ErrorCall Mem :=
  let base_col : Nat := 0
  let peer_col : Nat := 1 <<< b
  let m1 := write16Pin ch m test_row base_col false
  let m2 := write16Pin ch m1 test_row peer_col true
  if read16Pin ch m2 test_row base_col ≠ false then .error ⟨b + 16, 1, -1, -1⟩
  else if read16Pin ch m2 test_row peer_col ≠ true then .error ⟨b + 16, 1, -1, -1⟩
  else .ok m2

/-- `checkAddressing_16Pin` (16Pin.cpp): walking single-bit test over every
row address bit, then every column address bit on the middle row. -/
def checkAddressing_16Pin (ch : AliasChip) (typeT : Nat) (m : Mem) :
    Except ErrorCall Unit :=
  let max_rows := (ramDef typeT).rows
  let max_cols := (ramDef typeT).columns
  let row_bits := countBits (max_rows - 1)
  let col_bits := countBits (max_cols - 1)
  match exceptFoldMem (rowBitTest ch typeT) m (List.range row_bits) with
  | .error e => .error e
  | .ok m' =>
    let test_row := max_rows >>> 1
    match exceptFoldMem (colBitTest ch test_row) m' (List.range col_bits) with
    | .error e => .error e
    | .ok _ => .ok ()

/-- Clear bit `b` of an address: the physical effect of address line `b`
being stuck low. -/
def clearBit (b a : Nat) : Nat := a &&& (0xFFFF ^^^ (1 <<< b))

/-- A chip whose row address line `b` is stuck low. -/
def rowStuckChip (b : Nat) : AliasChip := ⟨clearBit b, fun c => c⟩

/-- A chip whose column address line `b` is stuck low. -/
def colStuckChip (b : Nat) : AliasChip := ⟨fun r => r, clearBit b⟩

def memAllFalse : Mem := fun _ => false

instance {e a : Type} [DecidableEq e] [DecidableEq a] : DecidableEq (Except e a) :=
  fun x y =>
    match x, y with
    | .ok u, .ok v => decidable_of_iff (u = v) (by simp)
    | .error u, .error v => decidable_of_iff (u = v) (by simp)
    | .ok _, .error _ => isFalse (by simp)
    | .error _, .ok _ => isFalse (by simp)

set_option maxRecDepth 8192 in
theorem checkAddressing_rowStuck : ∀ b < 8,
    checkAddressing_16Pin (rowStuckChip b) T_4164 memAllFalse = .error ⟨b, 1, -1, -1⟩ := by
  decide

set_option maxRecDepth 8192 in
theorem checkAddressing_colStuck : ∀ b < 8,
    checkAddressing_16Pin (colStuckChip b) T_4164 memAllFalse = .error ⟨b + 16, 1, -1, -1⟩ := by
  decide

/-- Claim C5: `checkAddressing_16Pin` reports a defective row address bit
`b` as `error(b, 1)` and a defective column address bit `b` as
`error(b + 16, 1)`; in particular a chip with address bit A3 stuck low
yields exactly `error(3, 1)` (the address-line error kind) and nothing
else — the fold stops at the first fault, with no continuation. -/
theorem claim_C5_checkAddressing_errors :
    (∀ b < 8, checkAddressing_16Pin (rowStuckChip b) T_4164 memAllFalse =
      .error ⟨b, 1, -1, -1⟩) ∧
    (∀ b < 8, checkAddressing_16Pin (colStuckChip b) T_4164 memAllFalse =
      .error ⟨b + 16, 1, -1, -1⟩) ∧
    checkAddressing_16Pin (rowStuckChip 3) T_4164 memAllFalse = .error ⟨3, 1, -1, -1⟩ :=
  ⟨checkAddressing_rowStuck, checkAddressing_colStuck,
   checkAddressing_rowStuck 3 (by norm_num)⟩

/-- Witness for C5 at concrete stuck bits. -/
theorem claim_C5_witness :
    checkAddressing_16Pin (rowStuckChip 5) T_4164 memAllFalse = .error ⟨5, 1, -1, -1⟩ ∧
    checkAddressing_16Pin (colStuckChip 5) T_4164 memAllFalse = .error ⟨21, 1, -1, -1⟩ :=
  ⟨claim_C5_checkAddressing_errors.1 5 (by norm_num),
   claim_C5_checkAddressing_errors.2.1 5 (by norm_num)⟩

/-! ## Retention check scheduling in writeRow_16Pin (C3)

The retention section at the end of `writeRow_16Pin`:

```
if (row == last_row)      for (int8_t x = delayRows; x >= 0; x--) checkRow(row - x);
else if (row >= delayRows) checkRow(row - delayRows);
else                       (delay only);
```

`retChecksIn N k row` is the list of rows whose retention check runs in
iteration `row` (in execution order), for an array of `N` rows with
`delayRows = k`; `retEvents N k` is the flat sequence of write and check
events of one pattern pass. -/

def retChecksIn (N k row : Nat) : List Nat :=
  if row = N - 1 then (List.range (k + 1)).map (fun i => row - (k - i))
  else if k ≤ row then [row - k]
  else []

inductive RetEvent where
  | wr (row : Nat)
  | chk (row : Nat)
deriving DecidableEq

/-- Events of one loop iteration: the row write, then its deferred checks. -/
def retBlock (N k row : Nat) : List RetEvent :=
  .wr row :: (retChecksIn N k row).map .chk

def retEventsOf (N k : Nat) : List Nat → List RetEvent
  | [] => []
  | r :: rs => retBlock N k r ++ retEventsOf N k rs

/-- The full write/check event sequence of one pattern pass. -/
def retEvents (N k : Nat) : List RetEvent := retEventsOf N k (List.range N)

def wrOf : RetEvent → Option Nat
  | .wr r => some r
  | .chk _ => none

def chkOf : RetEvent → Option Nat
  | .chk r => some r
  | .wr _ => none

theorem retEventsOf_append (N k : Nat) (l₁ l₂ : List Nat) :
    retEventsOf N k (l₁ ++ l₂) = retEventsOf N k l₁ ++ retEventsOf N k l₂ := by
  induction l₁ with
  | nil => simp [retEventsOf]
  | cons r rs ih => simp [retEventsOf, ih]

theorem filterMap_wrOf_map_chk (cs : List Nat) :
    (cs.map RetEvent.chk).filterMap wrOf = [] := by
  induction cs with
  | nil => rfl
  | cons c cs ih => simp [List.filterMap_cons, wrOf, ih]

theorem filterMap_chkOf_map_chk (cs : List Nat) :
    (cs.map RetEvent.chk).filterMap chkOf = cs := by
  induction cs with
  | nil => rfl
  | cons c cs ih => simp [List.filterMap_cons, chkOf, ih]

theorem filterMap_wrOf_retEventsOf (N k : Nat) (l : List Nat) :
    (retEventsOf N k l).filterMap wrOf = l := by
  induction l with
  | nil => rfl
  | cons r rs ih =>
    simp [retEventsOf, retBlock, List.filterMap_cons, List.filterMap_append, wrOf, ih,
      filterMap_wrOf_map_chk]

theorem retChecksIn_last (N k : Nat) (hk : k ≤ N - 1) :
    retChecksIn N k (N - 1) = List.range' (N - 1 - k) (k + 1) := by
  rw [retChecksIn, if_pos rfl, List.range'_eq_map_range]
  apply List.map_congr_left
  intro i hi
  rw [List.mem_range] at hi
  omega

theorem filterMap_chkOf_range (N k : Nat) :
    ∀ m, m ≤ N - 1 → (retEventsOf N k (List.range m)).filterMap chkOf =
      List.range (m - k) := by
  intro m
  induction m with
  | zero => intro _; simp [retEventsOf, Nat.zero_sub]
  | succ m ih =>
    intro hm
    rw [List.range_succ, retEventsOf_append, List.filterMap_append, ih (by omega)]
    have hmne : m ≠ N - 1 := by omega
    by_cases hkm : k ≤ m
    · have : retChecksIn N k m = [m - k] := by rw [retChecksIn, if_neg hmne, if_pos hkm]
      simp [retEventsOf, retBlock, this, List.filterMap_cons, chkOf]
      rw [← List.range_succ]
      congr 1
      omega
    · have : retChecksIn N k m = [] := by
        rw [retChecksIn, if_neg hmne, if_neg hkm]
      simp [retEventsOf, retBlock, this, List.filterMap_cons, chkOf]
      congr 1
      omega

theorem range_split_last (N : Nat) (hN : 0 < N) :
    List.range N = List.range (N - 1) ++ [N - 1] := by
  rw [← List.range_succ]
  congr 1
  omega

theorem retEvents_chk_all (N k : Nat) (hN : 0 < N) (hk : k ≤ N - 1) :
    (retEvents N k).filterMap chkOf = List.range N := by
  rw [retEvents, range_split_last N hN, retEventsOf_append, List.filterMap_append,
    filterMap_chkOf_range N k (N - 1) le_rfl]
  have hblk : (retEventsOf N k [N - 1]).filterMap chkOf =
      List.range' (N - 1 - k) (k + 1) := by
    simp only [retEventsOf, List.append_nil, retBlock, List.filterMap_cons, chkOf]
    rw [filterMap_chkOf_map_chk, retChecksIn_last N k hk]
  rw [hblk, List.range_eq_range']
  have happ := List.range'_append_1 0 (N - 1 - k) (k + 1)
  simp only [Nat.zero_add] at happ
  have hNN : k + 1 + (N - 1 - k) = N := by omega
  rw [happ, hNN, ← List.range_eq_range']
  exact range_split_last N hN

theorem retChecksIn_mem_iff (N k : Nat) (hk : k ≤ N - 1) (r row : Nat) (hrow : row < N) :
    r ∈ retChecksIn N k row ↔ (r < N ∧ row = min (r + k) (N - 1)) := by
  rw [retChecksIn]
  by_cases hlast : row = N - 1
  · subst hlast
    rw [if_pos rfl]
    simp only [List.mem_map, List.mem_range]
    constructor
    · rintro ⟨i, hi, rfl⟩
      omega
    · rintro ⟨hrN, hmin⟩
      exact ⟨r - (N - 1 - k), by omega, by omega⟩
  · rw [if_neg hlast]
    by_cases hkm : k ≤ row
    · rw [if_pos hkm]
      simp only [List.mem_singleton]
      omega
    · rw [if_neg hkm]
      simp only [List.not_mem_nil, false_iff, not_and]
      omega

theorem retEvents_adjacent (N k r : Nat) (h : r + k < N - 1) :
    ∃ l₁ l₂, retEvents N k = l₁ ++ .wr (r + k) :: .chk r :: l₂ := by
  have hsplit : List.range N = (List.range (r + k) ++ [r + k]) ++
      List.range' (r + k + 1) (N - (r + k + 1)) := by
    rw [← List.range_succ, List.range_eq_range', List.range_eq_range']
    have happ := List.range'_append_1 0 (r + k + 1) (N - (r + k + 1))
    simp only [Nat.zero_add] at happ
    rw [happ]
    congr 1
    omega
  have hblk : retChecksIn N k (r + k) = [r] := by
    rw [retChecksIn, if_neg (by omega), if_pos (by omega)]
    congr 1
    omega
  rw [retEvents, hsplit, retEventsOf_append, retEventsOf_append]
  refine ⟨retEventsOf N k (List.range (r + k)), retEventsOf N k (List.range' (r + k + 1) (N - (r + k + 1))), ?_⟩
  simp [retEventsOf, retBlock, hblk]

theorem retEvents_trailing (N k : Nat) (hN : 0 < N) (hk : k ≤ N - 1) :
    ∃ l₁, retEvents N k = l₁ ++ .wr (N - 1) ::
      ((List.range' (N - 1 - k) (k + 1)).map RetEvent.chk) := by
  rw [retEvents, range_split_last N hN, retEventsOf_append]
  refine ⟨retEventsOf N k (List.range (N - 1)), ?_⟩
  simp [retEventsOf, retBlock, retChecksIn_last N k hk]

/-- Claim C3: with `delayRows = k` over `N` rows, the retention read-back
of row `r` is emitted exactly in iteration `min (r+k) (N-1)` — i.e. it is
triggered by the write of row `r+k` and never earlier (immediately after
that write when `r+k < N-1`); the trailing `k` rows are checked
immediately after the last row's write completes; the pass writes every
row exactly once in order, and retention-checks every row exactly once. -/
theorem claim_C3_retention_staggering (N k : Nat) (hN : 0 < N) (hk : k ≤ N - 1) :
    (∀ r row, row < N →
      (r ∈ retChecksIn N k row ↔ (r < N ∧ row = min (r + k) (N - 1)))) ∧
    ((retEvents N k).filterMap wrOf = List.range N) ∧
    ((retEvents N k).filterMap chkOf = List.range N) ∧
    (∀ r, r + k < N - 1 →
      ∃ l₁ l₂, retEvents N k = l₁ ++ .wr (r + k) :: .chk r :: l₂) ∧
    (∃ l₁, retEvents N k = l₁ ++ .wr (N - 1) ::
      ((List.range' (N - 1 - k) (k + 1)).map RetEvent.chk)) :=
  ⟨fun r row hrow => retChecksIn_mem_iff N k hk r row hrow,
   filterMap_wrOf_retEventsOf N k (List.range N),
   retEvents_chk_all N k hN hk,
   fun r hr => retEvents_adjacent N k r hr,
   retEvents_trailing N k hN hk⟩

/-- Witness for C3 at the 4164 parameters (256 rows, delayRows = 2),
checking one concrete instance of each conjunct. -/
theorem claim_C3_witness :
    (3 ∈ retChecksIn 256 2 5 ↔ (3 < 256 ∧ 5 = min (3 + 2) 255)) ∧
    ((retEvents 256 2).filterMap wrOf = List.range 256) ∧
    ((retEvents 256 2).filterMap chkOf = List.range 256) ∧
    (∃ l₁ l₂, retEvents 256 2 = l₁ ++ .wr 9 :: .chk 7 :: l₂) ∧
    (∃ l₁, retEvents 256 2 = l₁ ++ .wr 255 ::
      ((List.range' 253 3).map RetEvent.chk)) := by
  have h := claim_C3_retention_staggering 256 2 (by norm_num) (by norm_num)
  exact ⟨h.1 3 5 (by norm_num), h.2.1, h.2.2.1,
    h.2.2.2.1 7 (by norm_num), h.2.2.2.2⟩

/-! ## Pattern engine (16Pin.cpp 4.0.6): chip model

The pattern tests run against a simulated chip in which individual columns
may be permanently stuck: a stuck column ignores writes and always reads
back `stuckVal`; a good column behaves as ideal memory.  (Address decoding
is exercised by C5's model; here the lines are assumed wired.)  The
embedding covers the non-nibble data path of the engine — the `is_nibble`
branches of the C code only re-assert RAS for timing and, for the 41257,
use a different hardware access mode that no claim concerns. -/

structure StuckChip where
  goodCol : Nat → Bool
  stuckVal : Bool

def StuckChip.write (ch : StuckChip) (m : Mem) (row col : Nat) (v : Bool) : Mem :=
  if ch.goodCol col then memUpd m (row, col) v else m

def StuckChip.read (ch : StuckChip) (m : Mem) (row col : Nat) : Bool :=
  if ch.goodCol col then m (row, col) else ch.stuckVal

/-- Apply a sequence of write cycles (in program order) to the chip. -/
def applyWrites (ch : StuckChip) : Mem → List ((Nat × Nat) × Bool) → Mem
  | m, [] => m
  | m, e :: rest => applyWrites ch (ch.write m e.1.1 e.1.2 e.2) rest

/-! ## Half-good error tracking (fastPatternTest / checkRow)

`error_in_lower_half` / `error_in_upper_half` are two bitmasks; bit 0x01
records the row half of a failing cell, bit 0x02 its column half. -/

abbrev Halves := Nat × Nat

/-- The two tracking statements shared by `fastPatternTest_16Pin` and
`checkRow_16Pin`:
`if (row >= 128) upper |= 0x01; else lower |= 0x01;`
`if (colHi)      upper |= 0x02; else lower |= 0x02;`. -/
def recordHalfError (hs : Halves) (rowHi colHi : Bool) : Halves :=
  let hs1 : Halves := if rowHi then (hs.1, hs.2 ||| 0x01) else (hs.1 ||| 0x01, hs.2)
  if colHi then (hs1.1, hs1.2 ||| 0x02) else (hs1.1 ||| 0x02, hs1.2)

/-- The guard under which a mismatch is swallowed rather than reported:
`(type == T_4164 || type == T_4532 || type == T_3732) && (lower & upper & 0x03) != 0x03`. -/
def halfErrSwallowed (typeT : Nat) (hs : Halves) : Bool :=
  (typeT == T_4164 || typeT == T_4532 || typeT == T_3732) &&
    !((hs.1 &&& hs.2 &&& 0x03) == 0x03)

/-! ## fastPatternTest_16Pin (patterns 0-3)

The port-ordered iteration: PORTC supplies column bits A0 (PC4) and A8
(PC0) plus the data-in bit (PC1); PORTB supplies A6 (PB0), A3 (PB2),
A4 (PB4); PORTD supplies A2 (PD0), A1 (PD1), A7 (PD6), A5 (PD7).
`colOf16 pc pb pd` is the logical column selected by loop indices
`(pc_i, pb_i, pd_i)`, read off the `pc_w`/`pb_addr`/`pd_lut` tables:
A0 = pc bit0, A8 = pc bit1, A6 = pb bit0, A3 = pb bit1, A4 = pb bit2,
A2 = pd bit0, A1 = pd bit1, A7 = pd bit2, A5 = pd bit3. -/

def colOf16 (pc pb pd : Nat) : Nat :=
  (pc &&& 1) + 2 * ((pd >>> 1) &&& 1) + 4 * (pd &&& 1) + 8 * ((pb >>> 1) &&& 1) +
  16 * ((pb >>> 2) &&& 1) + 32 * ((pd >>> 3) &&& 1) + 64 * (pb &&& 1) +
  128 * ((pd >>> 2) &&& 1) + 256 * ((pc >>> 1) &&& 1)

/-- `din_a0_0`: the DIN port bit (PC1 = 0x02) driven when A0 = 0:
`(pat & 0x04) ? 0x02 : 0x00`. -/
def fptDin0 (patNr : Nat) : Nat :=
  if patternAt patNr &&& 0x04 ≠ 0 then 0x02 else 0x00

/-- `din_a0_1`: the DIN bit when A0 = 1; patterns 0-1 constant, patterns
2-3 from the rotated pattern byte. -/
def fptDin1 (patNr : Nat) : Nat :=
  if patNr ≤ 1 then fptDin0 patNr
  else if rotate_left (patternAt patNr) &&& 0x04 ≠ 0 then 0x02 else 0x00

/-- The write-phase PORTC LUT `pc_w[4]` (CAS high bit 0x08, A0 = 0x10,
A8 = 0x01, DIN embedded in 0x02). -/
def pc_w (patNr i : Nat) : Nat :=
  match i with
  | 0 => 0x08 ||| fptDin0 patNr
  | 1 => 0x08 ||| 0x10 ||| fptDin1 patNr
  | 2 => 0x08 ||| 0x01 ||| fptDin0 patNr
  | _ => 0x08 ||| 0x11 ||| fptDin1 patNr

/-- The expected-DOUT LUT `exp_a0[4]` (DOUT = PC2 = 0x04):
entries 0 and 2 from `din_a0_0`, entries 1 and 3 from `din_a0_1`. -/
def exp_a0 (patNr i : Nat) : Nat :=
  match i % 2 with
  | 0 => if fptDin0 patNr ≠ 0 then 0x04 else 0x00
  | _ => if fptDin1 patNr ≠ 0 then 0x04 else 0x00

/-- The loop-index triples `(pc_i, pb_i, pd_i)` of one row pass, in
iteration order (both the write and the read phase nest PORTC outermost,
PORTB, then PORTD innermost). -/
def fptCells (numPc : Nat) : List (Nat × Nat × Nat) :=
  (List.range numPc).flatMap fun pc =>
    (List.range 8).flatMap fun pb =>
      (List.range 16).map fun k => (pc, pb, k)

/-- The write cycles of the write phase of one row: each cell receives the
DIN bit embedded in its `pc_w` PORTC value. -/
def fptWriteList (patNr numPc row : Nat) : List ((Nat × Nat) × Bool) :=
  (fptCells numPc).map fun c =>
    ((row, colOf16 c.1 c.2.1 c.2.2), (pc_w patNr c.1 &&& 0x02) != 0)

/-- One read-phase cell of `fastPatternTest_16Pin`: compare DOUT with
`exp_a0[pc_i]`; on mismatch record the half-error (column half from
`PORTD & 0x40`, i.e. bit 2 of the PORTD loop index = column A7); swallow
if the chip may be half-good and both halves have not yet failed,
otherwise `error(patNr + 1, 2)`. -/
def fptCheckCell (ch : StuckChip) (typeT patNr row : Nat) (m : Mem) (hs : Halves)
    (c : Nat × Nat × Nat) : Except ErrorCall Halves :=
  let col := colOf16 c.1 c.2.1 c.2.2
  let exp : Bool := exp_a0 patNr c.1 != 0
  if ch.read m row col ≠ exp then
    let hs' := recordHalfError hs (decide (row ≥ 128)) (decide ((c.2.2 >>> 2) &&& 1 = 1))
    if halfErrSwallowed typeT hs' then .ok hs'
    else .error ⟨patNr + 1, 2, -1, -1⟩
  else .ok hs

def fptCheckCells (ch : StuckChip) (typeT patNr row : Nat) (m : Mem) :
    Halves → List (Nat × Nat × Nat) → Except ErrorCall Halves
  | hs, [] => .ok hs
  | hs, c :: rest =>
    match fptCheckCell ch typeT patNr row m hs c with
    | .ok hs' => fptCheckCells ch typeT patNr row m hs' rest
    | .error e => .error e

/-- One outer-loop iteration of `fastPatternTest_16Pin`: write the whole
row, then immediately read it back. -/
def fastPatternRow (ch : StuckChip) (typeT patNr numPc row : Nat) (m : Mem)
    (hs : Halves) : Except ErrorCall (Mem × Halves) :=
  let m' := applyWrites ch m (fptWriteList patNr numPc row)
  match fptCheckCells ch typeT patNr row m' hs (fptCells numPc) with
  | .ok hs' => .ok (m', hs')
  | .error e => .error e

def fastPatternRows (ch : StuckChip) (typeT patNr numPc : Nat) :
    List Nat → Mem → Halves → Except ErrorCall (Mem × Halves)
  | [], m, hs => .ok (m, hs)
  | row :: rest, m, hs =>
    match fastPatternRow ch typeT patNr numPc row m hs with
    | .ok (m', hs') => fastPatternRows ch typeT patNr numPc rest m' hs'
    | .error e => .error e

/-- `fastPatternTest_16Pin(patNr)`: patterns 0-3, port-ordered, write then
read back per row over all rows of the detected type.
`num_pc = (columns > 256) ? 4 : 2`. -/
def fastPatternTest_16Pin (ch : StuckChip) (typeT patNr : Nat) (m : Mem)
    (hs : Halves) : Except ErrorCall (Mem × Halves) :=
  let numPc := if (ramDef typeT).columns > 256 then 4 else 2
  fastPatternRows ch typeT patNr numPc (List.range (ramDef typeT).rows) m hs

/-! ## writeRow_16Pin / checkRow_16Pin (patterns 4-5) -/

/-- Column order of the chunked page-mode loops in `writeRow_16Pin` and
`checkRow_16Pin`: chunks of 32 (high bits A5-A8), inner index from 31
down to 0, column = `chunkBase | c`. -/
def scanCols (cols : Nat) : List Nat :=
  (List.range (cols >>> 5)).flatMap fun chunk =>
    (List.range 32).reverse.map fun c => (chunk <<< 5) ||| c

/-- Write cycles of `writeRow_16Pin` for one row (non-nibble path):
`data_check = randomTable[mix8(chunkBase | c, row)]`, DIN = bit 0x04. -/
def wrWriteList (tbl : Nat → Nat) (cols row : Nat) : List ((Nat × Nat) × Bool) :=
  (scanCols cols).map fun col => ((row, col), (tbl (mix8 col row) &&& 0x04) != 0)

/-- The scan loop of `checkRow_16Pin` (non-nibble path): fold carrying
`(pat, error_found, error_column)`; a mismatch sets `error_found` and
records the first failing column; for patterns 0-3 the pattern byte is
rotated left after every cell. -/
def checkRowScan (ch : StuckChip) (tbl : Nat → Nat) (m : Mem) (row patNr cols : Nat)
    (pat0 : Nat) : Nat × Bool × Nat :=
  (scanCols cols).foldl (fun st col =>
    let expected : Nat := if patNr ≥ 4 then tbl (mix8 col row) else st.1
    let st' : Nat × Bool × Nat :=
      if ch.read m row col ≠ ((expected &&& 0x04) != 0) then
        (st.1, true, if st.2.1 then st.2.2 else col)
      else st
    if patNr ≥ 4 then st' else (rotate_left st'.1, st'.2)) (pat0, false, 0)

/-- `checkRow_16Pin(cols, row, patNr, check)`: verify one row; on a
mismatch record the half-error (column half from `error_column >= 128`),
swallow if the chip may be half-good and both halves have not yet failed,
otherwise `error(patNr + 1, check)`. -/
def checkRow_16Pin (ch : StuckChip) (typeT : Nat) (tbl : Nat → Nat) (m : Mem)
    (cols row patNr check : Nat) (hs : Halves) : Except ErrorCall Halves :=
  let scan := checkRowScan ch tbl m row patNr cols (patternAt patNr)
  let error_found := scan.2.1
  let error_column := scan.2.2
  if error_found then
    let hs' := recordHalfError hs (decide (row ≥ 128)) (decide (error_column ≥ 128))
    if halfErrSwallowed typeT hs' then .ok hs'
    else .error ⟨patNr + 1, check, -1, -1⟩
  else .ok hs

def checkRowsFold (ch : StuckChip) (typeT : Nat) (tbl : Nat → Nat) (m : Mem)
    (cols patNr check : Nat) : Halves → List Nat → Except ErrorCall Halves
  | hs, [] => .ok hs
  | hs, r :: rest =>
    match checkRow_16Pin ch typeT tbl m cols r patNr check hs with
    | .ok hs' => checkRowsFold ch typeT tbl m cols patNr check hs' rest
    | .error e => .error e

/-- `writeRow_16Pin(row, cols, patNr)` (non-nibble path): page-mode write
of the whole row, then the deferred retention checks of `retChecksIn`
(each a `checkRow` call with check kind 3). -/
def writeRow_16Pin (ch : StuckChip) (typeT : Nat) (tbl : Nat → Nat) (m : Mem)
    (row cols patNr : Nat) (hs : Halves) : Except ErrorCall (Mem × Halves) :=
  let m' := applyWrites ch m (wrWriteList tbl cols row)
  let targets := retChecksIn (ramDef typeT).rows (ramDef typeT).delayRows row
  match checkRowsFold ch typeT tbl m' cols patNr 3 hs targets with
  | .ok hs' => .ok (m', hs')
  | .error e => .error e

def writeRows_16Pin (ch : StuckChip) (typeT : Nat) (tbl : Nat → Nat)
    (cols patNr : Nat) : List Nat → Mem → Halves → Except ErrorCall (Mem × Halves)
  | [], m, hs => .ok (m, hs)
  | row :: rest, m, hs =>
    match writeRow_16Pin ch typeT tbl m row cols patNr hs with
    | .ok (m', hs') => writeRows_16Pin ch typeT tbl cols patNr rest m' hs'
    | .error e => .error e

def fptPatternsFold (ch : StuckChip) (typeT : Nat) :
    List Nat → Mem → Halves → Except ErrorCall (Mem × Halves)
  | [], m, hs => .ok (m, hs)
  | p :: rest, m, hs =>
    match fastPatternTest_16Pin ch typeT p m hs with
    | .ok (m', hs') => fptPatternsFold ch typeT rest m' hs'
    | .error e => .error e

/-- `run_16Pin_tests` (16Pin.cpp): reset the half-good trackers, run
patterns 0-3 through `fastPatternTest_16Pin`, then patterns 4-5 through
`writeRow_16Pin` (inverting the random table before pattern 5; nibble-mode
chips halve the row count), and finally determine the half-good subtype:
a `T_4164` whose column-half error bits differ becomes `T_3732`, with
suffix "(H)" if the lower column half failed and "(L)" otherwise.
Returns the final chip type and suffix. -/
def run_16Pin_tests (ch : StuckChip) (typeT : Nat) (tbl : Nat → Nat) (m : Mem) :
    Except ErrorCall (Nat × Option String) :=
  let hs0 : Halves := (0, 0)
  match fptPatternsFold ch typeT [0, 1, 2, 3] m hs0 with
  | .error e => .error e
  | .ok (m1, hs1) =>
    let total_rows := if (ramDef typeT).flags &&& RAM_FLAG_NIBBLE_MODE ≠ 0
                      then (ramDef typeT).rows / 2 else (ramDef typeT).rows
    let cols := (ramDef typeT).columns
    match writeRows_16Pin ch typeT tbl cols 4 (List.range total_rows) m1 hs1 with
    | .error e => .error e
    | .ok (m2, hs2) =>
      match writeRows_16Pin ch typeT (invertRandomTable tbl) cols 5
          (List.range total_rows) m2 hs2 with
      | .error e => .error e
      | .ok (_, hs3) =>
        let typeT' := if typeT == T_4164 && ((hs3.1 &&& 0x02) != (hs3.2 &&& 0x02))
                      then T_3732 else typeT
        let suffix := if typeT' == T_3732 then
            some (if hs3.1 &&& 0x02 ≠ 0 then "(H)" else "(L)") else none
        .ok (typeT', suffix)

/-! ## Read-after-write lemmas for the chip model -/

theorem applyWrites_frame (ch : StuckChip) (l : List ((Nat × Nat) × Bool)) :
    ∀ (m : Mem) (key : Nat × Nat), (∀ e ∈ l, e.1 ≠ key) →
      applyWrites ch m l key = m key := by
  induction l with
  | nil => intro m key _; rfl
  | cons e rest ih =>
    intro m key h
    rw [applyWrites, ih _ _ (fun x hx => h x (List.mem_cons_of_mem e hx))]
    have hne : key ≠ e.1 := fun hk => h e (List.mem_cons_self e rest) hk.symm
    unfold StuckChip.write
    by_cases hg : ch.goodCol e.1.2
    · simp only [hg, if_true]
      exact memUpd_ne m e.2 hne
    · simp [hg]

theorem applyWrites_lookup (ch : StuckChip) (row col : Nat) (v : Bool)
    (hgood : ch.goodCol col = true) :
    ∀ (l : List ((Nat × Nat) × Bool)),
      (∀ e ∈ l, e.1 = (row, col) → e.2 = v) →
      ∀ m, applyWrites ch m l (row, col) =
        if (row, col) ∈ l.map Prod.fst then v else m (row, col) := by
  intro l
  induction l with
  | nil => intro _ m; simp [applyWrites]
  | cons e rest ih =>
    obtain ⟨⟨r', c'⟩, v'⟩ := e
    intro hval m
    rw [applyWrites, ih (fun x hx => hval x (List.mem_cons_of_mem _ hx))]
    by_cases hmem : (row, col) ∈ rest.map Prod.fst
    · simp [hmem]
    · by_cases hkey : (r', c') = (row, col)
      · have hv : v' = v := hval ⟨(r', c'), v'⟩ (List.mem_cons_self _ rest) hkey
        obtain ⟨hr, hc⟩ := Prod.ext_iff.1 hkey
        subst hr; subst hc; subst hv
        simp [hmem, StuckChip.write, hgood, memUpd_same]
      · have hwr : ch.write m r' c' v' (row, col) = m (row, col) := by
          rw [StuckChip.write]
          by_cases hg : ch.goodCol c'
          · simp only [hg, if_true]
            exact memUpd_ne m v' (fun h => hkey h.symm)
          · simp [hg]
        have hkey2 : ¬((row, col) = (r', c')) := fun h => hkey h.symm
        simp [hmem, hkey2, hwr]

theorem read_stuck (ch : StuckChip) (m : Mem) (row col : Nat)
    (h : ch.goodCol col = false) : ch.read m row col = ch.stuckVal := by
  simp [StuckChip.read, h]

theorem read_good (ch : StuckChip) (m : Mem) (row col : Nat)
    (h : ch.goodCol col = true) : ch.read m row col = m (row, col) := by
  simp [StuckChip.read, h]

/-! ## fastPatternTest helper facts -/


/-! ## fastPatternTest helper facts -/

theorem mem_fptCells {numPc : Nat} {c : Nat × Nat × Nat} :
    c ∈ fptCells numPc ↔ c.1 < numPc ∧ c.2.1 < 8 ∧ c.2.2 < 16 := by
  obtain ⟨pc, pb, pd⟩ := c
  simp [fptCells, Prod.ext_iff]
  constructor
  · rintro ⟨a, ha, b, hb, k, hk, h1, h2, h3⟩
    subst h1; subst h2; subst h3
    exact ⟨ha, hb, hk⟩
  · rintro ⟨ha, hb, hk⟩
    exact ⟨pc, ha, pb, hb, pd, hk, rfl, rfl, rfl⟩

theorem fptDin0_cases (patNr : Nat) : fptDin0 patNr = 0 ∨ fptDin0 patNr = 2 := by
  unfold fptDin0
  split
  · exact Or.inr rfl
  · exact Or.inl rfl

theorem fptDin1_cases (patNr : Nat) : fptDin1 patNr = 0 ∨ fptDin1 patNr = 2 := by
  unfold fptDin1
  split
  · exact fptDin0_cases patNr
  · split
    · exact Or.inr rfl
    · exact Or.inl rfl

/-- The DIN bit embedded in `pc_w[i]` depends only on the A0 parity of the
index: entries 0/2 carry `din_a0_0`, entries 1/3 carry `din_a0_1`. -/
theorem pcw_and2 (patNr : Nat) : ∀ i < 4, pc_w patNr i &&& 0x02 =
    if i % 2 = 0 then fptDin0 patNr else fptDin1 patNr := by
  intro i hi
  rcases fptDin0_cases patNr with h0 | h0 <;> rcases fptDin1_cases patNr with h1 | h1 <;>
    interval_cases i <;> simp [pc_w, h0, h1] <;> decide

/-- Bit 0 (A0) of the enumerated column equals bit 0 of the PORTC index. -/
theorem colOf16_and1 : ∀ pc < 4, ∀ pb < 8, ∀ pd < 16,
    colOf16 pc pb pd &&& 1 = pc &&& 1 := by decide

/-- The DIN bit written (`pc_w[i] & 0x02`) and the DOUT bit expected
(`exp_a0[i]`) agree for every PORTC loop index. -/
theorem din_exp_agree (patNr : Nat) : ∀ i < 4,
    ((pc_w patNr i &&& 0x02) != 0) = (exp_a0 patNr i != 0) := by
  intro i hi
  rw [pcw_and2 patNr i hi]
  rcases fptDin0_cases patNr with h0 | h0 <;> rcases fptDin1_cases patNr with h1 | h1 <;>
    interval_cases i <;> simp [exp_a0, h0, h1]

/-- Reading a good column after the write phase of a row returns the DIN
bit that the write phase drove for that cell. -/
theorem fpt_read_good (ch : StuckChip) (patNr numPc row : Nat) (hnum : numPc ≤ 4)
    (c : Nat × Nat × Nat) (hc : c ∈ fptCells numPc)
    (hgood : ch.goodCol (colOf16 c.1 c.2.1 c.2.2) = true) (m : Mem) :
    ch.read (applyWrites ch m (fptWriteList patNr numPc row)) row
      (colOf16 c.1 c.2.1 c.2.2) = ((pc_w patNr c.1 &&& 0x02) != 0) := by
  obtain ⟨hb1, hb2, hb3⟩ := mem_fptCells.1 hc
  rw [read_good _ _ _ _ hgood]
  have hval : ∀ e ∈ fptWriteList patNr numPc row,
      e.1 = (row, colOf16 c.1 c.2.1 c.2.2) → e.2 = ((pc_w patNr c.1 &&& 0x02) != 0) := by
    intro e he hkey
    simp only [fptWriteList, List.mem_map] at he
    obtain ⟨c', hc', rfl⟩ := he
    obtain ⟨hb1', hb2', hb3'⟩ := mem_fptCells.1 hc'
    have hcol : colOf16 c'.1 c'.2.1 c'.2.2 = colOf16 c.1 c.2.1 c.2.2 :=
      (Prod.ext_iff.1 hkey).2
    have h1 : c'.1 &&& 1 = c.1 &&& 1 := by
      rw [← colOf16_and1 c'.1 (Nat.lt_of_lt_of_le hb1' hnum) c'.2.1 hb2' c'.2.2 hb3',
        hcol, colOf16_and1 c.1 (Nat.lt_of_lt_of_le hb1 hnum) c.2.1 hb2 c.2.2 hb3]
    have h2 : c'.1 % 2 = c.1 % 2 := by
      rw [← Nat.and_one_is_mod, ← Nat.and_one_is_mod, h1]
    simp only []
    rw [pcw_and2 patNr c'.1 (Nat.lt_of_lt_of_le hb1' hnum),
      pcw_and2 patNr c.1 (Nat.lt_of_lt_of_le hb1 hnum), h2]
  have hmem : (row, colOf16 c.1 c.2.1 c.2.2) ∈ (fptWriteList patNr numPc row).map Prod.fst := by
    simp only [fptWriteList, List.map_map, List.mem_map]
    exact ⟨c, hc, rfl⟩
  rw [applyWrites_lookup ch row (colOf16 c.1 c.2.1 c.2.2) _ hgood _ hval m, if_pos hmem]

/-! ## Half-error tracking invariants -/


theorem halves_or1_lt4 : ∀ x < 4, x ||| 1 < 4 := by decide
theorem halves_or2_lt4 : ∀ x < 4, x ||| 2 < 4 := by decide
theorem halves_or1_and2 : ∀ x < 4, (x ||| 1) &&& 2 = x &&& 2 := by decide
theorem halves_or2_and2 : ∀ x < 4, (x ||| 2) &&& 2 = 2 := by decide
theorem halves_swallow : ∀ x < 4, ∀ y < 4, x &&& 2 = 0 →
    ((x &&& y &&& 3) == 3) = false := by decide

theorem recordHalfError_colHi (hs : Halves) (rowHi : Bool) :
    recordHalfError hs rowHi true =
      ((if rowHi then hs.1 else hs.1 ||| 1), (if rowHi then hs.2 ||| 1 else hs.2) ||| 2) := by
  cases rowHi <;> simp [recordHalfError]

theorem halfType_beq {typeT : Nat} (hty : typeT = T_4164 ∨ typeT = T_4532 ∨ typeT = T_3732) :
    (typeT == T_4164 || typeT == T_4532 || typeT == T_3732) = true := by
  rcases hty with h | h | h <;> subst h <;> simp

theorem swallow_true {typeT : Nat}
    (hty : typeT = T_4164 ∨ typeT = T_4532 ∨ typeT = T_3732) {hs' : Halves}
    (h1 : hs'.1 < 4) (h2 : hs'.2 < 4) (h0 : hs'.1 &&& 2 = 0) :
    halfErrSwallowed typeT hs' = true := by
  simp [halfErrSwallowed, halfType_beq hty, halves_swallow hs'.1 h1 hs'.2 h2 h0]

theorem fptCheckCells_nomis (ch : StuckChip) (typeT patNr row : Nat) (m : Mem) :
    ∀ (cells : List (Nat × Nat × Nat)) (hs : Halves),
    (∀ c ∈ cells, ch.read m row (colOf16 c.1 c.2.1 c.2.2) = (exp_a0 patNr c.1 != 0)) →
    fptCheckCells ch typeT patNr row m hs cells = .ok hs := by
  intro cells
  induction cells with
  | nil => intro hs _; rfl
  | cons c rest ih =>
    intro hs h
    have hc := h c (List.mem_cons_self c rest)
    have hcell : fptCheckCell ch typeT patNr row m hs c = .ok hs := by
      simp [fptCheckCell, hc]
    simp only [fptCheckCells, hcell]
    exact ih hs (fun x hx => h x (List.mem_cons_of_mem c hx))

theorem recordHalfError_facts (hs : Halves) (rowHi : Bool)
    (h1 : hs.1 < 4) (h2 : hs.2 < 4) (h0 : hs.1 &&& 2 = 0) :
    (recordHalfError hs rowHi true).1 < 4 ∧ (recordHalfError hs rowHi true).2 < 4 ∧
    (recordHalfError hs rowHi true).1 &&& 2 = 0 ∧
    (recordHalfError hs rowHi true).2 &&& 2 = 2 := by
  rw [recordHalfError_colHi]
  cases rowHi
  · simp only [if_false, Bool.false_eq_true]
    exact ⟨halves_or1_lt4 hs.1 h1, halves_or2_lt4 hs.2 h2,
      (halves_or1_and2 hs.1 h1).trans h0, halves_or2_and2 hs.2 h2⟩
  · simp only [if_true]
    exact ⟨h1, halves_or2_lt4 _ (halves_or1_lt4 hs.2 h2), h0,
      halves_or2_and2 _ (halves_or1_lt4 hs.2 h2)⟩

theorem fptCheckCells_swallow (ch : StuckChip) (typeT patNr row : Nat) (m : Mem)
    (hty : typeT = T_4164 ∨ typeT = T_4532 ∨ typeT = T_3732) :
    ∀ (cells : List (Nat × Nat × Nat)) (hs : Halves),
    hs.1 < 4 → hs.2 < 4 → hs.1 &&& 2 = 0 →
    (∀ c ∈ cells, ch.read m row (colOf16 c.1 c.2.1 c.2.2) ≠ (exp_a0 patNr c.1 != 0) →
      (c.2.2 >>> 2) &&& 1 = 1) →
    ∃ hs', fptCheckCells ch typeT patNr row m hs cells = .ok hs' ∧
      hs'.1 < 4 ∧ hs'.2 < 4 ∧ hs'.1 &&& 2 = 0 ∧
      (hs'.2 &&& 2 = 2 ↔ (hs.2 &&& 2 = 2 ∨ ∃ c ∈ cells,
        ch.read m row (colOf16 c.1 c.2.1 c.2.2) ≠ (exp_a0 patNr c.1 != 0))) := by
  intro cells
  induction cells with
  | nil =>
    intro hs h1 h2 h0 _
    exact ⟨hs, rfl, h1, h2, h0, by simp⟩
  | cons c rest ih =>
    intro hs h1 h2 h0 hmis
    by_cases hm : ch.read m row (colOf16 c.1 c.2.1 c.2.2) ≠ (exp_a0 patNr c.1 != 0)
    · -- mismatch at c: the halves are updated and the error is swallowed
      have hcolHi : (c.2.2 >>> 2) &&& 1 = 1 := hmis c (List.mem_cons_self c rest) hm
      obtain ⟨k1, k2, k0, ktop⟩ :=
        recordHalfError_facts hs (decide (row ≥ 128)) h1 h2 h0
      have hcell : fptCheckCell ch typeT patNr row m hs c =
          .ok (recordHalfError hs (decide (row ≥ 128)) true) := by
        rw [fptCheckCell]
        rw [decide_eq_true hcolHi]
        rw [if_pos hm]
        simp only [swallow_true hty k1 k2 k0, if_true]
      obtain ⟨hs'', heq, j1, j2, j0, jiff⟩ :=
        ih (recordHalfError hs (decide (row ≥ 128)) true) k1 k2 k0
          (fun x hx => hmis x (List.mem_cons_of_mem c hx))
      refine ⟨hs'', ?_, j1, j2, j0, ?_⟩
      · simp only [fptCheckCells, hcell]
        exact heq
      · have hL : hs''.2 &&& 2 = 2 := jiff.2 (Or.inl ktop)
        have hR : hs.2 &&& 2 = 2 ∨ ∃ x ∈ c :: rest,
            ch.read m row (colOf16 x.1 x.2.1 x.2.2) ≠ (exp_a0 patNr x.1 != 0) :=
          Or.inr ⟨c, List.mem_cons_self c rest, hm⟩
        exact iff_of_true hL hR
    · -- no mismatch at c
      have hcell : fptCheckCell ch typeT patNr row m hs c = .ok hs := by
        rw [fptCheckCell]
        rw [if_neg hm]
      obtain ⟨hs'', heq, j1, j2, j0, jiff⟩ :=
        ih hs h1 h2 h0 (fun x hx => hmis x (List.mem_cons_of_mem c hx))
      refine ⟨hs'', ?_, j1, j2, j0, ?_⟩
      · simp only [fptCheckCells, hcell]
        exact heq
      · rw [jiff]
        constructor
        · rintro (h | ⟨x, hx, px⟩)
          · exact Or.inl h
          · exact Or.inr ⟨x, List.mem_cons_of_mem c hx, px⟩
        · rintro (h | ⟨x, hx, px⟩)
          · exact Or.inl h
          · rcases List.mem_cons.1 hx with rfl | hx'
            · exact absurd px hm
            · exact Or.inr ⟨x, hx', px⟩

/-! ## Fold step equations (applied symbolically so that proofs never
evaluate the folds on concrete 256-row instances) -/

theorem fptPatternsFold_cons_ok (ch : StuckChip) (typeT p : Nat) (rest : List Nat)
    (m m' : Mem) (hs hs' : Halves)
    (h : fastPatternTest_16Pin ch typeT p m hs = .ok (m', hs')) :
    fptPatternsFold ch typeT (p :: rest) m hs = fptPatternsFold ch typeT rest m' hs' := by
  simp only [fptPatternsFold, h]

theorem writeRows_cons_ok (ch : StuckChip) (typeT : Nat) (tbl : Nat → Nat)
    (cols patNr row : Nat) (rest : List Nat) (m m' : Mem) (hs hs' : Halves)
    (h : writeRow_16Pin ch typeT tbl m row cols patNr hs = .ok (m', hs')) :
    writeRows_16Pin ch typeT tbl cols patNr (row :: rest) m hs =
      writeRows_16Pin ch typeT tbl cols patNr rest m' hs' := by
  simp only [writeRows_16Pin, h]

theorem checkRowsFold_cons_ok (ch : StuckChip) (typeT : Nat) (tbl : Nat → Nat)
    (m : Mem) (cols patNr check r : Nat) (rest : List Nat) (hs hs' : Halves)
    (h : checkRow_16Pin ch typeT tbl m cols r patNr check hs = .ok hs') :
    checkRowsFold ch typeT tbl m cols patNr check hs (r :: rest) =
      checkRowsFold ch typeT tbl m cols patNr check hs' rest := by
  simp only [checkRowsFold, h]

theorem fastPatternRows_cons_ok (ch : StuckChip) (typeT patNr numPc row : Nat)
    (rest : List Nat) (m m' : Mem) (hs hs' : Halves)
    (h : fastPatternRow ch typeT patNr numPc row m hs = .ok (m', hs')) :
    fastPatternRows ch typeT patNr numPc (row :: rest) m hs =
      fastPatternRows ch typeT patNr numPc rest m' hs' := by
  simp only [fastPatternRows, h]

/-! ## The simulated chips of the testable properties -/

/-- The half-good chip of C1: columns < 128 fully functional, columns
≥ 128 permanently stuck (reading 0, ignoring writes). -/
def halfChip : StuckChip := ⟨fun c => decide (c < 128), false⟩

/-- A fault-free chip: every column behaves as ideal memory. -/
def perfectChip : StuckChip := ⟨fun _ => true, false⟩

theorem halfChip_stuck_ge {col : Nat} (h : halfChip.goodCol col = false) : 128 ≤ col := by
  have := of_decide_eq_false h
  omega

/-- On the 4164 column range (numPc = 2, columns < 256), the enumerated
column is ≥ 128 exactly when column address bit A7 — bit 2 of the PORTD
loop index — is set. -/
theorem colOf16_ge128 : ∀ pc < 2, ∀ pb < 8, ∀ pd < 16,
    (128 ≤ colOf16 pc pb pd ↔ (pd >>> 2) &&& 1 = 1) := by decide

/-- Invariant of the half-good trackers: both masks are 2-bit values and
no error has been seen in the lower column half. -/
def HalvesInv (hs : Halves) : Prop := hs.1 < 4 ∧ hs.2 < 4 ∧ hs.1 &&& 2 = 0

/-! ## fastPatternTest on the fault-free chip -/

theorem fastPatternRow_perfect (typeT patNr numPc row : Nat) (m : Mem) (hs : Halves)
    (hnum : numPc ≤ 4) :
    fastPatternRow perfectChip typeT patNr numPc row m hs =
      .ok (applyWrites perfectChip m (fptWriteList patNr numPc row), hs) := by
  rw [fastPatternRow]
  rw [fptCheckCells_nomis perfectChip typeT patNr row _ (fptCells numPc) hs ?_]
  intro c hc
  have hb := mem_fptCells.1 hc
  rw [fpt_read_good perfectChip patNr numPc row hnum c hc rfl m]
  exact din_exp_agree patNr c.1 (Nat.lt_of_lt_of_le hb.1 hnum)

theorem fastPatternRows_perfect (typeT patNr numPc : Nat) (hnum : numPc ≤ 4) :
    ∀ (rows : List Nat) (m : Mem) (hs : Halves),
    ∃ m', fastPatternRows perfectChip typeT patNr numPc rows m hs = .ok (m', hs) := by
  intro rows
  induction rows with
  | nil => intro m hs; exact ⟨m, rfl⟩
  | cons r rest ih =>
    intro m hs
    obtain ⟨m', hm'⟩ := ih (applyWrites perfectChip m (fptWriteList patNr numPc r)) hs
    refine ⟨m', ?_⟩
    rw [fastPatternRows_cons_ok perfectChip typeT patNr numPc r rest m _ hs hs
      (fastPatternRow_perfect typeT patNr numPc r m hs hnum)]
    exact hm'

/-! ## fastPatternTest on the half-good chip -/

theorem fastPatternRow_half (typeT patNr row : Nat) (m : Mem) (hs : Halves)
    (hty : typeT = T_4164 ∨ typeT = T_4532 ∨ typeT = T_3732) (hinv : HalvesInv hs) :
    ∃ hs', fastPatternRow halfChip typeT patNr 2 row m hs =
        .ok (applyWrites halfChip m (fptWriteList patNr 2 row), hs') ∧ HalvesInv hs' ∧
      (hs.2 &&& 2 = 2 → hs'.2 &&& 2 = 2) ∧ (patNr = 1 → hs'.2 &&& 2 = 2) := by
  obtain ⟨h1, h2, h0⟩ := hinv
  set m' := applyWrites halfChip m (fptWriteList patNr 2 row) with hm'
  have hmis : ∀ c ∈ fptCells 2,
      halfChip.read m' row (colOf16 c.1 c.2.1 c.2.2) ≠ (exp_a0 patNr c.1 != 0) →
      (c.2.2 >>> 2) &&& 1 = 1 := by
    intro c hc hm
    have hb := mem_fptCells.1 hc
    cases hg : halfChip.goodCol (colOf16 c.1 c.2.1 c.2.2)
    · exact (colOf16_ge128 c.1 hb.1 c.2.1 hb.2.1 c.2.2 hb.2.2).1 (halfChip_stuck_ge hg)
    · exfalso
      apply hm
      rw [hm', fpt_read_good halfChip patNr 2 row (by norm_num) c hc hg m]
      exact din_exp_agree patNr c.1 (lt_of_lt_of_le hb.1 (by norm_num))
  obtain ⟨hs', heq, j1, j2, j0, jiff⟩ :=
    fptCheckCells_swallow halfChip typeT patNr row m' hty (fptCells 2) hs h1 h2 h0 hmis
  refine ⟨hs', ?_, ⟨j1, j2, j0⟩, ?_, ?_⟩
  · rw [fastPatternRow]
    simp only [← hm', heq]
  · intro h; exact jiff.2 (Or.inl h)
  · intro hp1; subst hp1
    refine jiff.2 (Or.inr ⟨(0, 0, 4), ?_, ?_⟩)
    · exact mem_fptCells.2 (by norm_num)
    · have hrd : halfChip.read m' row (colOf16 0 0 4) = false :=
        read_stuck _ _ _ _ (by decide)
      rw [hrd]
      decide

theorem fastPatternRows_half (typeT patNr : Nat)
    (hty : typeT = T_4164 ∨ typeT = T_4532 ∨ typeT = T_3732) :
    ∀ (rows : List Nat) (m : Mem) (hs : Halves), HalvesInv hs →
    ∃ m' hs', fastPatternRows halfChip typeT patNr 2 rows m hs = .ok (m', hs') ∧
      HalvesInv hs' ∧ (hs.2 &&& 2 = 2 → hs'.2 &&& 2 = 2) ∧
      (patNr = 1 → rows ≠ [] → hs'.2 &&& 2 = 2) := by
  intro rows
  induction rows with
  | nil =>
    intro m hs hinv
    exact ⟨m, hs, rfl, hinv, fun h => h, fun _ h => absurd rfl h⟩
  | cons r rest ih =>
    intro m hs hinv
    obtain ⟨hs1, heq1, hinv1, hmono1, hp1⟩ := fastPatternRow_half typeT patNr r m hs hty hinv
    obtain ⟨m', hs', heq2, hinv', hmono2, hp2⟩ := ih _ hs1 hinv1
    refine ⟨m', hs', ?_, hinv', fun h => hmono2 (hmono1 h), ?_⟩
    · rw [fastPatternRows_cons_ok halfChip typeT patNr 2 r rest m _ hs hs1 heq1]
      exact heq2
    · intro h1 _
      exact hmono2 (hp1 h1)

theorem fastPatternTest_half (patNr : Nat) (m : Mem) (hs : Halves) (hinv : HalvesInv hs) :
    ∃ m' hs', fastPatternTest_16Pin halfChip T_4164 patNr m hs = .ok (m', hs') ∧
      HalvesInv hs' ∧ (hs.2 &&& 2 = 2 → hs'.2 &&& 2 = 2) ∧
      (patNr = 1 → hs'.2 &&& 2 = 2) := by
  have hrw : fastPatternTest_16Pin halfChip T_4164 patNr m hs =
      fastPatternRows halfChip T_4164 patNr 2 (List.range 256) m hs := rfl
  obtain ⟨m', hs', heq, hinv', hmono, hp⟩ :=
    fastPatternRows_half T_4164 patNr (Or.inl rfl) (List.range 256) m hs hinv
  exact ⟨m', hs', hrw.trans heq, hinv', hmono, fun h1 => hp h1 (by decide)⟩

theorem fptPatternsFold_half (m : Mem) :
    ∃ m' hs', fptPatternsFold halfChip T_4164 [0, 1, 2, 3] m (0, 0) = .ok (m', hs') ∧
      HalvesInv hs' ∧ hs'.2 &&& 2 = 2 := by
  have hinv0 : HalvesInv (0, 0) := ⟨by norm_num, by norm_num, rfl⟩
  obtain ⟨m1, hs1, e1, i1, _, _⟩ := fastPatternTest_half 0 m (0, 0) hinv0
  obtain ⟨m2, hs2, e2, i2, _, p2⟩ := fastPatternTest_half 1 m1 hs1 i1
  have hbit2 : hs2.2 &&& 2 = 2 := p2 rfl
  obtain ⟨m3, hs3, e3, i3, mono3, _⟩ := fastPatternTest_half 2 m2 hs2 i2
  obtain ⟨m4, hs4, e4, i4, mono4, _⟩ := fastPatternTest_half 3 m3 hs3 i3
  refine ⟨m4, hs4, ?_, i4, mono4 (mono3 hbit2)⟩
  rw [fptPatternsFold_cons_ok _ _ _ _ _ _ _ _ e1, fptPatternsFold_cons_ok _ _ _ _ _ _ _ _ e2,
    fptPatternsFold_cons_ok _ _ _ _ _ _ _ _ e3, fptPatternsFold_cons_ok _ _ _ _ _ _ _ _ e4,
    fptPatternsFold]

/-! ## checkRow / writeRow on the simulated chips (patterns 4-5) -/

theorem foldl_inv {α β : Type} (f : β → α → β) (P : β → Prop) :
    ∀ (l : List α) (st : β), P st → (∀ st x, x ∈ l → P st → P (f st x)) →
    P (List.foldl f st l) := by
  intro l
  induction l with
  | nil => intro st h _; exact h
  | cons x rest ih =>
    intro st h hstep
    exact ih (f st x) (hstep st x (List.mem_cons_self x rest) h)
      (fun st' y hy => hstep st' y (List.mem_cons_of_mem x hy))

theorem checkRowScan_nomis (ch : StuckChip) (tbl : Nat → Nat) (m : Mem)
    (row cols patNr pat0 : Nat) (hp : patNr ≥ 4)
    (hmem : ∀ col ∈ scanCols cols, ch.read m row col = ((tbl (mix8 col row) &&& 0x04) != 0)) :
    (checkRowScan ch tbl m row patNr cols pat0).2 = (false, 0) := by
  rw [checkRowScan]
  refine foldl_inv _ (fun st => st.2 = (false, 0)) (scanCols cols) (pat0, false, 0) rfl ?_
  intro st col hcol hP
  have hno : ¬(ch.read m row col ≠ ((tbl (mix8 col row) &&& 0x04) != 0)) := by
    rw [hmem col hcol]
    exact fun h => h rfl
  simp only [ge_iff_le, if_pos hp, if_neg hno]
  exact hP

theorem checkRowScan_half_found (ch : StuckChip) (tbl : Nat → Nat) (m : Mem)
    (row cols patNr pat0 : Nat) (hp : patNr ≥ 4)
    (hstuck : ∀ col, ch.goodCol col = false → 128 ≤ col)
    (hmem : ∀ col ∈ scanCols cols, ch.goodCol col = true →
      ch.read m row col = ((tbl (mix8 col row) &&& 0x04) != 0)) :
    (checkRowScan ch tbl m row patNr cols pat0).2.1 = true →
    128 ≤ (checkRowScan ch tbl m row patNr cols pat0).2.2 := by
  rw [checkRowScan]
  refine foldl_inv _ (fun st => st.2.1 = true → 128 ≤ st.2.2) (scanCols cols)
    (pat0, false, 0) (by simp) ?_
  intro st col hcol hP
  by_cases hm : ch.read m row col ≠ ((tbl (mix8 col row) &&& 0x04) != 0)
  · have hstuckcol : 128 ≤ col := by
      cases hg : ch.goodCol col
      · exact hstuck col hg
      · exact absurd (hmem col hcol hg) hm
    simp only [ge_iff_le, if_pos hp, if_pos hm]
    intro _
    cases hf : st.2.1
    · simpa [hf] using hstuckcol
    · simpa [hf] using hP hf
  · simp only [ge_iff_le, if_pos hp, if_neg hm]
    exact hP

theorem checkRow_nomis (ch : StuckChip) (typeT : Nat) (tbl : Nat → Nat) (m : Mem)
    (cols row patNr check : Nat) (hs : Halves) (hp : patNr ≥ 4)
    (hmem : ∀ col ∈ scanCols cols, ch.read m row col = ((tbl (mix8 col row) &&& 0x04) != 0)) :
    checkRow_16Pin ch typeT tbl m cols row patNr check hs = .ok hs := by
  have hscan := checkRowScan_nomis ch tbl m row cols patNr (patternAt patNr) hp hmem
  rw [checkRow_16Pin]
  simp [hscan]

theorem checkRow_half_ok (ch : StuckChip) (typeT : Nat) (tbl : Nat → Nat) (m : Mem)
    (cols row patNr check : Nat) (hs : Halves)
    (hty : typeT = T_4164 ∨ typeT = T_4532 ∨ typeT = T_3732)
    (hp : patNr ≥ 4) (hinv : HalvesInv hs)
    (hstuck : ∀ col, ch.goodCol col = false → 128 ≤ col)
    (hmem : ∀ col ∈ scanCols cols, ch.goodCol col = true →
      ch.read m row col = ((tbl (mix8 col row) &&& 0x04) != 0)) :
    ∃ hs', checkRow_16Pin ch typeT tbl m cols row patNr check hs = .ok hs' ∧
      HalvesInv hs' ∧ (hs.2 &&& 2 = 2 → hs'.2 &&& 2 = 2) := by
  obtain ⟨h1, h2, h0⟩ := hinv
  cases hfound : (checkRowScan ch tbl m row patNr cols (patternAt patNr)).2.1
  · refine ⟨hs, ?_, ⟨h1, h2, h0⟩, fun h => h⟩
    rw [checkRow_16Pin]
    simp [hfound]
  · have hge := checkRowScan_half_found ch tbl m row cols patNr (patternAt patNr)
      hp hstuck hmem hfound
    obtain ⟨k1, k2, k0, ktop⟩ := recordHalfError_facts hs (decide (row ≥ 128)) h1 h2 h0
    refine ⟨recordHalfError hs (decide (row ≥ 128)) true, ?_, ⟨k1, k2, k0⟩, fun _ => ktop⟩
    rw [checkRow_16Pin]
    simp [hfound, decide_eq_true hge, swallow_true hty k1 k2 k0]

def MemGood (ch : StuckChip) (tbl : Nat → Nat) (cols j : Nat) (m : Mem) : Prop :=
  ∀ r, r < j → ∀ col ∈ scanCols cols, ch.goodCol col = true →
    m (r, col) = ((tbl (mix8 col r) &&& 0x04) != 0)

theorem memGood_after_write (ch : StuckChip) (tbl : Nat → Nat) (cols j : Nat) (m : Mem)
    (hmg : MemGood ch tbl cols j m) :
    MemGood ch tbl cols (j + 1) (applyWrites ch m (wrWriteList tbl cols j)) := by
  intro r hr col hcol hgood
  by_cases hrj : r = j
  · subst hrj
    have hval : ∀ e ∈ wrWriteList tbl cols r, e.1 = (r, col) →
        e.2 = ((tbl (mix8 col r) &&& 0x04) != 0) := by
      intro e he hkey
      simp only [wrWriteList, List.mem_map] at he
      obtain ⟨col', _, rfl⟩ := he
      obtain ⟨_, hc⟩ := Prod.ext_iff.1 hkey
      simp only at hc ⊢
      rw [hc]
    have hmem : (r, col) ∈ (wrWriteList tbl cols r).map Prod.fst := by
      simp only [wrWriteList, List.map_map, List.mem_map]
      exact ⟨col, hcol, rfl⟩
    rw [applyWrites_lookup ch r col _ hgood _ hval m, if_pos hmem]
  · have hframe : ∀ e ∈ wrWriteList tbl cols j, e.1 ≠ (r, col) := by
      intro e he
      simp only [wrWriteList, List.mem_map] at he
      obtain ⟨col', _, rfl⟩ := he
      intro hkey
      exact hrj ((Prod.ext_iff.1 hkey).1).symm
    rw [applyWrites_frame ch _ m (r, col) hframe]
    exact hmg r (by omega) col hcol hgood

theorem retChecksIn_le (N k row : Nat) : ∀ r ∈ retChecksIn N k row, r ≤ row := by
  intro r hr
  rw [retChecksIn] at hr
  split at hr
  · simp only [List.mem_map, List.mem_range] at hr
    obtain ⟨i, _, rfl⟩ := hr
    omega
  · split at hr
    · simp only [List.mem_singleton] at hr
      omega
    · simp at hr

theorem checkRowsFold_half_ok (ch : StuckChip) (typeT : Nat) (tbl : Nat → Nat) (m : Mem)
    (cols patNr check : Nat)
    (hty : typeT = T_4164 ∨ typeT = T_4532 ∨ typeT = T_3732)
    (hp : patNr ≥ 4)
    (hstuck : ∀ col, ch.goodCol col = false → 128 ≤ col) :
    ∀ (targets : List Nat) (hs : Halves), HalvesInv hs →
    (∀ r ∈ targets, ∀ col ∈ scanCols cols, ch.goodCol col = true →
      ch.read m r col = ((tbl (mix8 col r) &&& 0x04) != 0)) →
    ∃ hs', checkRowsFold ch typeT tbl m cols patNr check hs targets = .ok hs' ∧
      HalvesInv hs' ∧ (hs.2 &&& 2 = 2 → hs'.2 &&& 2 = 2) := by
  intro targets
  induction targets with
  | nil => intro hs hinv _; exact ⟨hs, rfl, hinv, fun h => h⟩
  | cons r rest ih =>
    intro hs hinv hmem
    obtain ⟨hs1, e1, i1, mono1⟩ := checkRow_half_ok ch typeT tbl m cols r patNr check hs
      hty hp hinv hstuck (hmem r (List.mem_cons_self r rest))
    obtain ⟨hs', e2, i2, mono2⟩ := ih hs1 i1 (fun x hx => hmem x (List.mem_cons_of_mem r hx))
    refine ⟨hs', ?_, i2, fun h => mono2 (mono1 h)⟩
    rw [checkRowsFold_cons_ok ch typeT tbl m cols patNr check r rest hs hs1 e1]
    exact e2

theorem checkRowsFold_nomis (ch : StuckChip) (typeT : Nat) (tbl : Nat → Nat) (m : Mem)
    (cols patNr check : Nat) (hp : patNr ≥ 4) :
    ∀ (targets : List Nat) (hs : Halves),
    (∀ r ∈ targets, ∀ col ∈ scanCols cols,
      ch.read m r col = ((tbl (mix8 col r) &&& 0x04) != 0)) →
    checkRowsFold ch typeT tbl m cols patNr check hs targets = .ok hs := by
  intro targets
  induction targets with
  | nil => intro hs _; rfl
  | cons r rest ih =>
    intro hs hmem
    rw [checkRowsFold_cons_ok ch typeT tbl m cols patNr check r rest hs hs
      (checkRow_nomis ch typeT tbl m cols r patNr check hs hp
        (hmem r (List.mem_cons_self r rest)))]
    exact ih hs (fun x hx => hmem x (List.mem_cons_of_mem r hx))

theorem writeRow_ok (ch : StuckChip) (typeT : Nat) (tbl : Nat → Nat) (m : Mem)
    (row cols patNr : Nat) (hs hs' : Halves)
    (h : checkRowsFold ch typeT tbl (applyWrites ch m (wrWriteList tbl cols row))
      cols patNr 3 hs (retChecksIn (ramDef typeT).rows (ramDef typeT).delayRows row) =
      .ok hs') :
    writeRow_16Pin ch typeT tbl m row cols patNr hs =
      .ok (applyWrites ch m (wrWriteList tbl cols row), hs') := by
  rw [writeRow_16Pin]
  simp only [h]

theorem writeRows_half_aux (ch : StuckChip) (typeT : Nat) (tbl : Nat → Nat)
    (cols patNr : Nat)
    (hty : typeT = T_4164 ∨ typeT = T_4532 ∨ typeT = T_3732)
    (hp : patNr ≥ 4)
    (hstuck : ∀ col, ch.goodCol col = false → 128 ≤ col) :
    ∀ (n j : Nat) (m : Mem) (hs : Halves), HalvesInv hs →
    MemGood ch tbl cols j m →
    ∃ m' hs', writeRows_16Pin ch typeT tbl cols patNr (List.range' j n) m hs =
        .ok (m', hs') ∧ HalvesInv hs' ∧ (hs.2 &&& 2 = 2 → hs'.2 &&& 2 = 2) := by
  intro n
  induction n with
  | zero => intro j m hs hinv _; exact ⟨m, hs, rfl, hinv, fun h => h⟩
  | succ n ih =>
    intro j m hs hinv hmg
    have hmg' := memGood_after_write ch tbl cols j m hmg
    have hmem : ∀ r ∈ retChecksIn (ramDef typeT).rows (ramDef typeT).delayRows j,
        ∀ col ∈ scanCols cols, ch.goodCol col = true →
        ch.read (applyWrites ch m (wrWriteList tbl cols j)) r col =
          ((tbl (mix8 col r) &&& 0x04) != 0) := by
      intro r hr col hcol hgood
      rw [read_good _ _ _ _ hgood]
      exact hmg' r (by have := retChecksIn_le _ _ _ r hr; omega) col hcol hgood
    obtain ⟨hs1, e1, i1, mono1⟩ := checkRowsFold_half_ok ch typeT tbl
      (applyWrites ch m (wrWriteList tbl cols j)) cols patNr 3 hty hp hstuck
      (retChecksIn (ramDef typeT).rows (ramDef typeT).delayRows j) hs hinv hmem
    obtain ⟨m', hs', e2, i2, mono2⟩ := ih (j + 1) _ hs1 i1 hmg'
    refine ⟨m', hs', ?_, i2, fun h => mono2 (mono1 h)⟩
    rw [List.range'_succ, writeRows_cons_ok ch typeT tbl cols patNr j _ m _ hs hs1
      (writeRow_ok ch typeT tbl m j cols patNr hs hs1 e1)]
    exact e2

theorem writeRows_nomis_aux (ch : StuckChip) (typeT : Nat) (tbl : Nat → Nat)
    (cols patNr : Nat) (hp : patNr ≥ 4) (hall : ∀ col, ch.goodCol col = true) :
    ∀ (n j : Nat) (m : Mem) (hs : Halves), MemGood ch tbl cols j m →
    ∃ m', writeRows_16Pin ch typeT tbl cols patNr (List.range' j n) m hs = .ok (m', hs) := by
  intro n
  induction n with
  | zero => intro j m hs _; exact ⟨m, rfl⟩
  | succ n ih =>
    intro j m hs hmg
    have hmg' := memGood_after_write ch tbl cols j m hmg
    have hmem : ∀ r ∈ retChecksIn (ramDef typeT).rows (ramDef typeT).delayRows j,
        ∀ col ∈ scanCols cols,
        ch.read (applyWrites ch m (wrWriteList tbl cols j)) r col =
          ((tbl (mix8 col r) &&& 0x04) != 0) := by
      intro r hr col hcol
      rw [read_good _ _ _ _ (hall col)]
      exact hmg' r (by have := retChecksIn_le _ _ _ r hr; omega) col hcol (hall col)
    obtain ⟨m', e2⟩ := ih (j + 1) _ hs hmg'
    refine ⟨m', ?_⟩
    rw [List.range'_succ, writeRows_cons_ok ch typeT tbl cols patNr j _ m _ hs hs
      (writeRow_ok ch typeT tbl m j cols patNr hs hs
        (checkRowsFold_nomis ch typeT tbl _ cols patNr 3 hp _ hs hmem))]
    exact e2

/-! ## run_16Pin_tests on the simulated chips -/

theorem run_16Pin_tests_ok (ch : StuckChip) (typeT : Nat) (tbl : Nat → Nat)
    (m m1 m2 m3 : Mem) (hs1 hs2 hs3 : Halves)
    (h1 : fptPatternsFold ch typeT [0, 1, 2, 3] m (0, 0) = .ok (m1, hs1))
    (h2 : writeRows_16Pin ch typeT tbl (ramDef typeT).columns 4
      (List.range (if (ramDef typeT).flags &&& RAM_FLAG_NIBBLE_MODE ≠ 0
        then (ramDef typeT).rows / 2 else (ramDef typeT).rows)) m1 hs1 = .ok (m2, hs2))
    (h3 : writeRows_16Pin ch typeT (invertRandomTable tbl) (ramDef typeT).columns 5
      (List.range (if (ramDef typeT).flags &&& RAM_FLAG_NIBBLE_MODE ≠ 0
        then (ramDef typeT).rows / 2 else (ramDef typeT).rows)) m2 hs2 = .ok (m3, hs3)) :
    run_16Pin_tests ch typeT tbl m = .ok
      (if typeT == T_4164 && ((hs3.1 &&& 0x02) != (hs3.2 &&& 0x02)) then T_3732 else typeT,
       if (if typeT == T_4164 && ((hs3.1 &&& 0x02) != (hs3.2 &&& 0x02)) then T_3732 else typeT)
           == T_3732 then
         some (if hs3.1 &&& 0x02 ≠ 0 then "(H)" else "(L)") else none) := by
  rw [run_16Pin_tests]
  simp only [h1, h2, h3]

theorem run_16Pin_tests_halfChip (tbl : Nat → Nat) (m : Mem) :
    run_16Pin_tests halfChip T_4164 tbl m = .ok (T_3732, some "(L)") := by
  obtain ⟨m1, hs1, e1, i1, b1⟩ := fptPatternsFold_half m
  have hmg0 : MemGood halfChip tbl 256 0 m1 := fun r hr => absurd hr (Nat.not_lt_zero r)
  obtain ⟨m2, hs2, e2, i2, mono2⟩ := writeRows_half_aux halfChip T_4164 tbl 256 4
    (Or.inl rfl) (by norm_num) (fun col h => halfChip_stuck_ge h) 256 0 m1 hs1 i1 hmg0
  have hmg0' : MemGood halfChip (invertRandomTable tbl) 256 0 m2 :=
    fun r hr => absurd hr (Nat.not_lt_zero r)
  obtain ⟨m3, hs3, e3, i3, mono3⟩ := writeRows_half_aux halfChip T_4164
    (invertRandomTable tbl) 256 5 (Or.inl rfl) (by norm_num)
    (fun col h => halfChip_stuck_ge h) 256 0 m2 hs2 i2 hmg0'
  have e2' : writeRows_16Pin halfChip T_4164 tbl (ramDef T_4164).columns 4
      (List.range (if (ramDef T_4164).flags &&& RAM_FLAG_NIBBLE_MODE ≠ 0
        then (ramDef T_4164).rows / 2 else (ramDef T_4164).rows)) m1 hs1 = .ok (m2, hs2) := by
    rw [show (if (ramDef T_4164).flags &&& RAM_FLAG_NIBBLE_MODE ≠ 0
      then (ramDef T_4164).rows / 2 else (ramDef T_4164).rows) = 256 from rfl,
      show (ramDef T_4164).columns = 256 from rfl, List.range_eq_range']
    exact e2
  have e3' : writeRows_16Pin halfChip T_4164 (invertRandomTable tbl) (ramDef T_4164).columns 5
      (List.range (if (ramDef T_4164).flags &&& RAM_FLAG_NIBBLE_MODE ≠ 0
        then (ramDef T_4164).rows / 2 else (ramDef T_4164).rows)) m2 hs2 = .ok (m3, hs3) := by
    rw [show (if (ramDef T_4164).flags &&& RAM_FLAG_NIBBLE_MODE ≠ 0
      then (ramDef T_4164).rows / 2 else (ramDef T_4164).rows) = 256 from rfl,
      show (ramDef T_4164).columns = 256 from rfl, List.range_eq_range']
    exact e3
  rw [run_16Pin_tests_ok halfChip T_4164 tbl m m1 m2 m3 hs1 hs2 hs3 e1 e2' e3']
  have ha : hs3.1 &&& 2 = 0 := i3.2.2
  have hb : hs3.2 &&& 2 = 2 := mono3 (mono2 b1)
  rw [ha, hb]
  rfl

theorem fastPatternTest_perfect (typeT patNr : Nat) (m : Mem) (hs : Halves) :
    ∃ m', fastPatternTest_16Pin perfectChip typeT patNr m hs = .ok (m', hs) := by
  obtain ⟨m', e⟩ := fastPatternRows_perfect typeT patNr
    (if (ramDef typeT).columns > 256 then 4 else 2) (by split <;> norm_num)
    (List.range (ramDef typeT).rows) m hs
  exact ⟨m', e⟩

theorem fptPatternsFold_perfect (typeT : Nat) (m : Mem) (hs : Halves) :
    ∃ m', fptPatternsFold perfectChip typeT [0, 1, 2, 3] m hs = .ok (m', hs) := by
  obtain ⟨m1, e1⟩ := fastPatternTest_perfect typeT 0 m hs
  obtain ⟨m2, e2⟩ := fastPatternTest_perfect typeT 1 m1 hs
  obtain ⟨m3, e3⟩ := fastPatternTest_perfect typeT 2 m2 hs
  obtain ⟨m4, e4⟩ := fastPatternTest_perfect typeT 3 m3 hs
  refine ⟨m4, ?_⟩
  rw [fptPatternsFold_cons_ok _ _ _ _ _ _ _ _ e1, fptPatternsFold_cons_ok _ _ _ _ _ _ _ _ e2,
    fptPatternsFold_cons_ok _ _ _ _ _ _ _ _ e3, fptPatternsFold_cons_ok _ _ _ _ _ _ _ _ e4,
    fptPatternsFold]

theorem run_16Pin_tests_perfect_4164 (tbl : Nat → Nat) (m : Mem) :
    run_16Pin_tests perfectChip T_4164 tbl m = .ok (T_4164, none) := by
  obtain ⟨m1, e1⟩ := fptPatternsFold_perfect T_4164 m (0, 0)
  obtain ⟨m2, e2⟩ := writeRows_nomis_aux perfectChip T_4164 tbl 256 4 (by norm_num)
    (fun _ => rfl) 256 0 m1 (0, 0) (fun r hr => absurd hr (Nat.not_lt_zero r))
  obtain ⟨m3, e3⟩ := writeRows_nomis_aux perfectChip T_4164 (invertRandomTable tbl) 256 5
    (by norm_num) (fun _ => rfl) 256 0 m2 (0, 0) (fun r hr => absurd hr (Nat.not_lt_zero r))
  have e2' : writeRows_16Pin perfectChip T_4164 tbl (ramDef T_4164).columns 4
      (List.range (if (ramDef T_4164).flags &&& RAM_FLAG_NIBBLE_MODE ≠ 0
        then (ramDef T_4164).rows / 2 else (ramDef T_4164).rows)) m1 (0, 0) =
      .ok (m2, (0, 0)) := by
    rw [show (if (ramDef T_4164).flags &&& RAM_FLAG_NIBBLE_MODE ≠ 0
      then (ramDef T_4164).rows / 2 else (ramDef T_4164).rows) = 256 from rfl,
      show (ramDef T_4164).columns = 256 from rfl, List.range_eq_range']
    exact e2
  have e3' : writeRows_16Pin perfectChip T_4164 (invertRandomTable tbl) (ramDef T_4164).columns 5
      (List.range (if (ramDef T_4164).flags &&& RAM_FLAG_NIBBLE_MODE ≠ 0
        then (ramDef T_4164).rows / 2 else (ramDef T_4164).rows)) m2 (0, 0) =
      .ok (m3, (0, 0)) := by
    rw [show (if (ramDef T_4164).flags &&& RAM_FLAG_NIBBLE_MODE ≠ 0
      then (ramDef T_4164).rows / 2 else (ramDef T_4164).rows) = 256 from rfl,
      show (ramDef T_4164).columns = 256 from rfl, List.range_eq_range']
    exact e3
  rw [run_16Pin_tests_ok perfectChip T_4164 tbl m m1 m2 m3 (0, 0) (0, 0) (0, 0) e1 e2' e3']
  rfl

theorem run_16Pin_tests_perfect_41256 (tbl : Nat → Nat) (m : Mem) :
    run_16Pin_tests perfectChip T_41256 tbl m = .ok (T_41256, none) := by
  obtain ⟨m1, e1⟩ := fptPatternsFold_perfect T_41256 m (0, 0)
  obtain ⟨m2, e2⟩ := writeRows_nomis_aux perfectChip T_41256 tbl 512 4 (by norm_num)
    (fun _ => rfl) 512 0 m1 (0, 0) (fun r hr => absurd hr (Nat.not_lt_zero r))
  obtain ⟨m3, e3⟩ := writeRows_nomis_aux perfectChip T_41256 (invertRandomTable tbl) 512 5
    (by norm_num) (fun _ => rfl) 512 0 m2 (0, 0) (fun r hr => absurd hr (Nat.not_lt_zero r))
  have e2' : writeRows_16Pin perfectChip T_41256 tbl (ramDef T_41256).columns 4
      (List.range (if (ramDef T_41256).flags &&& RAM_FLAG_NIBBLE_MODE ≠ 0
        then (ramDef T_41256).rows / 2 else (ramDef T_41256).rows)) m1 (0, 0) =
      .ok (m2, (0, 0)) := by
    rw [show (if (ramDef T_41256).flags &&& RAM_FLAG_NIBBLE_MODE ≠ 0
      then (ramDef T_41256).rows / 2 else (ramDef T_41256).rows) = 512 from rfl,
      show (ramDef T_41256).columns = 512 from rfl, List.range_eq_range']
    exact e2
  have e3' : writeRows_16Pin perfectChip T_41256 (invertRandomTable tbl) (ramDef T_41256).columns 5
      (List.range (if (ramDef T_41256).flags &&& RAM_FLAG_NIBBLE_MODE ≠ 0
        then (ramDef T_41256).rows / 2 else (ramDef T_41256).rows)) m2 (0, 0) =
      .ok (m3, (0, 0)) := by
    rw [show (if (ramDef T_41256).flags &&& RAM_FLAG_NIBBLE_MODE ≠ 0
      then (ramDef T_41256).rows / 2 else (ramDef T_41256).rows) = 512 from rfl,
      show (ramDef T_41256).columns = 512 from rfl, List.range_eq_range']
    exact e3
  rw [run_16Pin_tests_ok perfectChip T_41256 tbl m m1 m2 m3 (0, 0) (0, 0) (0, 0) e1 e2' e3']
  rfl

/-- Claim C1: for a simulated 16-pin chip whose columns < 128 are fully
functional and whose columns ≥ 128 are permanently stuck, the full
6-pattern pass of `run_16Pin_tests` (sensed as a 4164) completes without
ever calling `error()` — all mismatches are confined to the stuck column
half and are swallowed by the half-good heuristic — and afterwards the
chip is reclassified as the lower-good variant: type `T_3732` with
suffix "(L)".  This holds for every random-table state and every initial
memory state. -/
theorem claim_C1_halfgood_classification (tbl : Nat → Nat) (m : Mem) :
    run_16Pin_tests halfChip T_4164 tbl m = .ok (T_3732, some "(L)") :=
  run_16Pin_tests_halfChip tbl m

/-- Claim C4: the data bit driven during the write phase equals the bit
the verification phase expects for every cell: for patterns 0-3 the DIN
bit embedded in `pc_w[i]` agrees with `exp_a0[i]` for every PORTC loop
index, and for patterns 4-5 every write of `writeRow_16Pin` drives
exactly the bit `randomTable[mix8(col,row)] & 0x04` that `checkRow_16Pin`
recomputes; hence on a fault-free simulated chip the entire 6-pattern
pass raises no error (shown for the 4164 and 41256 geometries). -/
theorem claim_C4_pattern_roundtrip :
    (∀ patNr : Nat, ∀ i < 4, ((pc_w patNr i &&& 0x02) != 0) = (exp_a0 patNr i != 0)) ∧
    (∀ (tbl : Nat → Nat) (cols row : Nat), ∀ e ∈ wrWriteList tbl cols row,
      e.2 = ((tbl (mix8 e.1.2 e.1.1) &&& 0x04) != 0)) ∧
    (∀ (tbl : Nat → Nat) (m : Mem),
      run_16Pin_tests perfectChip T_4164 tbl m = .ok (T_4164, none)) ∧
    (∀ (tbl : Nat → Nat) (m : Mem),
      run_16Pin_tests perfectChip T_41256 tbl m = .ok (T_41256, none)) := by
  refine ⟨din_exp_agree, ?_, run_16Pin_tests_perfect_4164, run_16Pin_tests_perfect_41256⟩
  intro tbl cols row e he
  simp only [wrWriteList, List.mem_map] at he
  obtain ⟨col', _, rfl⟩ := he
  rfl

/-- Witness for C4 at concrete inputs. -/
theorem claim_C4_witness :
    ((pc_w 2 1 &&& 0x02) != 0) = (exp_a0 2 1 != 0) ∧
    (((0, 31), ((4 : Nat) &&& 0x04) != 0) : (Nat × Nat) × Bool).2 =
      (((fun _ => 4) (mix8 31 0) &&& 0x04) != 0) ∧
    run_16Pin_tests perfectChip T_4164 (fun _ => 4) memAllFalse = .ok (T_4164, none) :=
  ⟨claim_C4_pattern_roundtrip.1 2 1 (by norm_num),
   claim_C4_pattern_roundtrip.2.1 (fun _ => 4) 32 0 ((0, 31), ((4 : Nat) &&& 0x04) != 0)
     (by simp [wrWriteList, scanCols]),
   claim_C4_pattern_roundtrip.2.2.1 (fun _ => 4) memAllFalse⟩




/-! ## Refresh time test: refreshTimeTest_16Pin (C8)

For the 41256, `refreshTimeTest_16Pin` writes the data byte
`randomTable[row & 0xFF]` across columns 0-7 of every row (phase 1),
performs 10 full CAS-before-RAS refresh sequences of 256 refresh cycles
each (phase 2 — pure timing, modelled by its pulse count), then reads
back and verifies (phase 3), reporting `error(0, 5)` on any mismatch.
The effect of the refresh interval on the cell array is modelled by a
`decay` transformation applied between the write and the verify phase:
the identity for a chip whose internal refresh counter works. -/

/-- Phase 1 writes for one row: bit `col` of `randomTable[row & 0xFF]`
goes to column `col`, for columns 0-7. -/
def refreshRowWrites (tbl : Nat → Nat) (row : Nat) : List ((Nat × Nat) × Bool) :=
  (List.range 8).map fun col => ((row, col), ((tbl (row &&& 0xFF) >>> col) &&& 1) == 1)

def refreshWritePhase (ch : StuckChip) (tbl : Nat → Nat) (rows : Nat) (m : Mem) : Mem :=
  (List.range rows).foldl (fun mm row => applyWrites ch mm (refreshRowWrites tbl row)) m

def refreshSequenceCount : Nat := 10
def refreshCyclesPerSequence : Nat := 256

def refreshPhase2Pulses : Nat :=
  (List.range refreshSequenceCount).foldl
    (fun acc _cycle =>
      (List.range refreshCyclesPerSequence).foldl (fun a _rc => a + 1) acc) 0

def refreshVerifyCols (ch : StuckChip) (tbl : Nat → Nat) (m : Mem) (row : Nat) :
    List Nat → Except ErrorCall Unit
  | [] => .ok ()
  | col :: rest =>
    let expectedByte := tbl (row &&& 0xFF)
    let actualBit : Nat := if ch.read m row col then 1 else 0
    let expectedBit := (expectedByte >>> col) &&& 1
    if actualBit ≠ expectedBit then .error ⟨0, 5, -1, -1⟩
    else refreshVerifyCols ch tbl m row rest

def refreshVerifyRows (ch : StuckChip) (tbl : Nat → Nat) (m : Mem) :
    List Nat → Except ErrorCall Unit
  | [] => .ok ()
  | row :: rest =>
    match refreshVerifyCols ch tbl m row (List.range 8) with
    | .ok _ => refreshVerifyRows ch tbl m rest
    | .error e => .error e

def refreshTimeTest_16Pin (ch : StuckChip) (tbl : Nat → Nat) (decay : Mem → Mem)
    (m : Mem) : Except ErrorCall Unit :=
  let rows := (ramDef T_41256).rows
  let m1 := refreshWritePhase ch tbl rows m
  let m2 := decay m1
  refreshVerifyRows ch tbl m2 (List.range rows)


theorem refreshVerifyCols_error (ch : StuckChip) (tbl : Nat → Nat) (m : Mem) (row : Nat) :
    ∀ (cl : List Nat) (e : ErrorCall), refreshVerifyCols ch tbl m row cl = .error e →
      e = ⟨0, 5, -1, -1⟩ := by
  intro cl
  induction cl with
  | nil => intro e h; exact absurd h (by simp [refreshVerifyCols])
  | cons col rest ih =>
    intro e h
    simp only [refreshVerifyCols] at h
    by_cases hc : (if ch.read m row col = true then (1 : Nat) else 0) ≠
        ((tbl (row &&& 0xFF) >>> col) &&& 1)
    · rw [if_pos hc] at h
      injection h with h'
      exact h'.symm
    · rw [if_neg hc] at h
      exact ih e h

theorem refreshVerifyCols_ok_iff (ch : StuckChip) (tbl : Nat → Nat) (m : Mem) (row : Nat) :
    ∀ cl : List Nat, refreshVerifyCols ch tbl m row cl = .ok () ↔
      ∀ col ∈ cl, (if ch.read m row col = true then (1 : Nat) else 0) =
        ((tbl (row &&& 0xFF) >>> col) &&& 1) := by
  intro cl
  induction cl with
  | nil => simp [refreshVerifyCols]
  | cons col rest ih =>
    simp only [refreshVerifyCols]
    by_cases hc : (if ch.read m row col = true then (1 : Nat) else 0) ≠
        ((tbl (row &&& 0xFF) >>> col) &&& 1)
    · rw [if_pos hc]
      simp only [List.mem_cons]
      constructor
      · intro h; exact absurd h (by simp)
      · intro h; exact absurd (h col (Or.inl rfl)) hc
    · rw [if_neg hc]
      push_neg at hc
      rw [ih]
      constructor
      · intro h col' hc'
        rcases List.mem_cons.1 hc' with rfl | hc''
        · exact hc
        · exact h col' hc''
      · intro h col' hc'
        exact h col' (List.mem_cons_of_mem col hc')

theorem refreshVerifyRows_error (ch : StuckChip) (tbl : Nat → Nat) (m : Mem) :
    ∀ (rl : List Nat) (e : ErrorCall), refreshVerifyRows ch tbl m rl = .error e →
      e = ⟨0, 5, -1, -1⟩ := by
  intro rl
  induction rl with
  | nil => intro e h; exact absurd h (by simp [refreshVerifyRows])
  | cons row rest ih =>
    intro e h
    rw [refreshVerifyRows] at h
    cases hcv : refreshVerifyCols ch tbl m row (List.range 8) with
    | ok u =>
      rw [hcv] at h
      exact ih e h
    | error e' =>
      rw [hcv] at h
      simp only [] at h
      injection h with h'
      subst h'
      exact refreshVerifyCols_error ch tbl m row _ e' hcv

theorem refreshVerifyRows_ok_iff (ch : StuckChip) (tbl : Nat → Nat) (m : Mem) :
    ∀ rl : List Nat, refreshVerifyRows ch tbl m rl = .ok () ↔
      ∀ row ∈ rl, ∀ col ∈ List.range 8,
        (if ch.read m row col = true then (1 : Nat) else 0) =
          ((tbl (row &&& 0xFF) >>> col) &&& 1) := by
  intro rl
  induction rl with
  | nil => simp [refreshVerifyRows]
  | cons row rest ih =>
    rw [refreshVerifyRows]
    cases hcv : refreshVerifyCols ch tbl m row (List.range 8) with
    | ok u =>
      cases u
      have hrow := (refreshVerifyCols_ok_iff ch tbl m row (List.range 8)).1 hcv
      rw [ih]
      simp only [List.mem_cons]
      constructor
      · intro h row' hr'
        rcases hr' with rfl | hr''
        · exact hrow
        · exact h row' hr''
      · intro h row' hr'
        exact h row' (Or.inr hr')
    | error e' =>
      constructor
      · intro h
        exact absurd h (by simp)
      · intro h
        exact absurd ((refreshVerifyCols_ok_iff ch tbl m row (List.range 8)).2
          (h row (List.mem_cons_self row rest))) (by simp [hcv])

def allStuckChip : StuckChip := ⟨fun _ => false, false⟩

theorem refreshTimeTest_error_shape (ch : StuckChip) (tbl : Nat → Nat) (decay : Mem → Mem)
    (m : Mem) (e : ErrorCall) (h : refreshTimeTest_16Pin ch tbl decay m = .error e) :
    e = ⟨0, 5, -1, -1⟩ := by
  rw [refreshTimeTest_16Pin] at h
  exact refreshVerifyRows_error ch tbl _ _ e h

theorem refreshTimeTest_ok_iff (ch : StuckChip) (tbl : Nat → Nat) (decay : Mem → Mem)
    (m : Mem) :
    refreshTimeTest_16Pin ch tbl decay m = .ok () ↔
      ∀ row < 512, ∀ col < 8,
        (if ch.read (decay (refreshWritePhase ch tbl 512 m)) row col = true
          then (1 : Nat) else 0) = ((tbl (row &&& 0xFF) >>> col) &&& 1) := by
  rw [refreshTimeTest_16Pin]
  rw [refreshVerifyRows_ok_iff ch tbl _ (List.range (ramDef T_41256).rows)]
  constructor
  · intro h row hrow col hcol
    exact h row (List.mem_range.2 hrow) col (List.mem_range.2 hcol)
  · intro h row hrow col hcol
    exact h row (List.mem_range.1 hrow) col (List.mem_range.1 hcol)

theorem foldl_count {α : Type} : ∀ (l : List α) (a : Nat),
    l.foldl (fun acc _ => acc + 1) a = a + l.length := by
  intro l
  induction l with
  | nil => intro a; simp
  | cons x rest ih =>
    intro a
    rw [List.foldl_cons, ih, List.length_cons]
    omega

theorem foldl_add_const {α : Type} (k : Nat) : ∀ (l : List α) (a : Nat),
    l.foldl (fun acc _ => acc + k) a = a + k * l.length := by
  intro l
  induction l with
  | nil => intro a; simp
  | cons x rest ih =>
    intro a
    rw [List.foldl_cons, ih, List.length_cons]
    ring

theorem refreshPhase2Pulses_eq :
    refreshPhase2Pulses = refreshSequenceCount * refreshCyclesPerSequence := by
  rw [refreshPhase2Pulses]
  have hfn : (fun (acc : Nat) (_cycle : Nat) =>
      (List.range refreshCyclesPerSequence).foldl (fun a _rc => a + 1) acc) =
      (fun acc _ => acc + refreshCyclesPerSequence) := by
    funext acc c
    rw [foldl_count]
    simp
  rw [hfn, foldl_add_const]
  simp [Nat.mul_comm]

/-- Claim C8: for a detected 41256 (512 rows), `refreshTimeTest_16Pin`
writes the data byte `randomTable[row & 0xFF]` across columns 0-7 of
every row; phase 2 issues CAS-before-RAS refresh sequences of exactly
256 refresh cycles each (256 = rows/2, not 512, matching the 8-bit
internal refresh counter that refreshes two physical rows per pulse);
and any read-back mismatch produces `error(0, 5)` — the refresh-timeout
kind — while a chip retaining all written bits reaches the end (and
hence `testOK()`). -/
theorem claim_C8_refreshTimeTest :
    (∀ (tbl : Nat → Nat) (row : Nat), refreshRowWrites tbl row =
      (List.range 8).map fun col => ((row, col), ((tbl (row % 256) >>> col) &&& 1) == 1)) ∧
    (refreshPhase2Pulses = refreshSequenceCount * refreshCyclesPerSequence ∧
     refreshPhase2Pulses = 2560 ∧
     refreshCyclesPerSequence = (ramDef T_41256).rows / 2 ∧
     refreshCyclesPerSequence ≠ (ramDef T_41256).rows) ∧
    (∀ (ch : StuckChip) (tbl : Nat → Nat) (decay : Mem → Mem) (m : Mem) (e : ErrorCall),
      refreshTimeTest_16Pin ch tbl decay m = .error e → e = ⟨0, 5, -1, -1⟩) ∧
    (∀ (ch : StuckChip) (tbl : Nat → Nat) (decay : Mem → Mem) (m : Mem),
      refreshTimeTest_16Pin ch tbl decay m = .ok () ↔
      ∀ row < 512, ∀ col < 8,
        (if ch.read (decay (refreshWritePhase ch tbl 512 m)) row col = true
          then (1 : Nat) else 0) = ((tbl (row &&& 0xFF) >>> col) &&& 1)) := by
  refine ⟨?_, ⟨refreshPhase2Pulses_eq, by rw [refreshPhase2Pulses_eq]; norm_num [refreshSequenceCount, refreshCyclesPerSequence], rfl, by decide⟩,
    refreshTimeTest_error_shape, refreshTimeTest_ok_iff⟩
  intro tbl row
  have hmod : row &&& 0xFF = row % 256 := by
    have h := Nat.and_pow_two_sub_one_eq_mod row 8
    norm_num at h
    exact h
  rw [refreshRowWrites, hmod]

set_option maxRecDepth 8192 in
/-- Witness for C8 at concrete inputs, including a concretely failing
chip whose refresh produced all-zero read-backs. -/
theorem claim_C8_witness :
    refreshRowWrites (fun _ => 255) 300 =
      (List.range 8).map (fun col => ((300, col), (((255 : Nat) >>> col) &&& 1) == 1)) ∧
    (⟨0, 5, -1, -1⟩ : ErrorCall) = ⟨0, 5, -1, -1⟩ :=
  ⟨claim_C8_refreshTimeTest.1 (fun _ => 255) 300,
   claim_C8_refreshTimeTest.2.2.1 allStuckChip (fun _ => 255) (fun mm => mm) memAllFalse
     ⟨0, 5, -1, -1⟩ rfl⟩

/-! ## The error() reporter (C9)

`error(code, kind, row, col)` (common.cpp) computes LED blink parameters
from the error kind and then enters `while (true) { ... blink ... }`.
The loop guard is the literal constant `true` and the body contains no
exit, so the call never returns; `errorLoopRun` is a fuel-indexed run of
the loop that returns `some ()` only if the loop ever exits. -/


def errorBlinkParams (code err : Nat) : Nat × Nat × Bool :=
  match err with
  | 0 => (0, 0, true)
  | 1 => (1, if 0 < code ∧ code ≤ 20 then code else 0, false)
  | 2 => (2, if code ≤ 4 then code + 1 else 6, false)
  | 3 => (2, 7, false)
  | 4 => (3, if 0 < code ∧ code ≤ 20 then code else 0, false)
  | 5 => (2, 8, false)
  | _ + 6 => (0, 0, false)

def errorLoopCond : Bool := true

def errorLoopRun : Nat → Option Unit
  | 0 => none
  | fuel + 1 => if errorLoopCond then errorLoopRun fuel else some ()

def error_run (code err fuel : Nat) : Option Unit :=
  let _params := errorBlinkParams code err
  errorLoopRun fuel

theorem errorLoopRun_none : ∀ fuel, errorLoopRun fuel = none := by
  intro fuel
  induction fuel with
  | zero => rfl
  | succ n ih => simp [errorLoopRun, errorLoopCond, ih]

theorem fptCheckCell_error_shape (ch : StuckChip) (typeT patNr row : Nat) (m : Mem)
    (hs : Halves) (c : Nat × Nat × Nat) (e : ErrorCall)
    (h : fptCheckCell ch typeT patNr row m hs c = .error e) :
    e = ⟨patNr + 1, 2, -1, -1⟩ := by
  simp only [fptCheckCell] at h
  split at h
  · split at h
    · exact absurd h (by simp)
    · injection h with h'
      exact h'.symm
  · exact absurd h (by simp)

theorem fptCheckCells_error_shape (ch : StuckChip) (typeT patNr row : Nat) (m : Mem) :
    ∀ (cells : List (Nat × Nat × Nat)) (hs : Halves) (e : ErrorCall),
    fptCheckCells ch typeT patNr row m hs cells = .error e →
    e = ⟨patNr + 1, 2, -1, -1⟩ := by
  intro cells
  induction cells with
  | nil => intro hs e h; exact absurd h (by simp [fptCheckCells])
  | cons c rest ih =>
    intro hs e h
    rw [fptCheckCells] at h
    cases hc : fptCheckCell ch typeT patNr row m hs c with
    | ok hs' =>
      rw [hc] at h
      simp only [] at h
      exact ih hs' e h
    | error e' =>
      rw [hc] at h
      simp only [] at h
      injection h with h'
      subst h'
      exact fptCheckCell_error_shape ch typeT patNr row m hs c e' hc

theorem fastPatternRow_error_shape (ch : StuckChip) (typeT patNr numPc row : Nat)
    (m : Mem) (hs : Halves) (e : ErrorCall)
    (h : fastPatternRow ch typeT patNr numPc row m hs = .error e) :
    e = ⟨patNr + 1, 2, -1, -1⟩ := by
  simp only [fastPatternRow] at h
  cases hc : fptCheckCells ch typeT patNr row
      (applyWrites ch m (fptWriteList patNr numPc row)) hs (fptCells numPc) with
  | ok hs' =>
    rw [hc] at h
    simp only [] at h
    exact absurd h (by simp)
  | error e' =>
    rw [hc] at h
    simp only [] at h
    injection h with h'
    subst h'
    exact fptCheckCells_error_shape ch typeT patNr row _ (fptCells numPc) hs e' hc

theorem fastPatternRows_error_shape (ch : StuckChip) (typeT patNr numPc : Nat) :
    ∀ (rows : List Nat) (m : Mem) (hs : Halves) (e : ErrorCall),
    fastPatternRows ch typeT patNr numPc rows m hs = .error e →
    e = ⟨patNr + 1, 2, -1, -1⟩ := by
  intro rows
  induction rows with
  | nil => intro m hs e h; exact absurd h (by simp [fastPatternRows])
  | cons row rest ih =>
    intro m hs e h
    rw [fastPatternRows] at h
    cases hc : fastPatternRow ch typeT patNr numPc row m hs with
    | ok p =>
      obtain ⟨m', hs'⟩ := p
      rw [hc] at h
      simp only [] at h
      exact ih m' hs' e h
    | error e' =>
      rw [hc] at h
      simp only [] at h
      injection h with h'
      subst h'
      exact fastPatternRow_error_shape ch typeT patNr numPc row m hs e' hc

theorem fastPatternTest_error_shape (ch : StuckChip) (typeT patNr : Nat)
    (m : Mem) (hs : Halves) (e : ErrorCall)
    (h : fastPatternTest_16Pin ch typeT patNr m hs = .error e) :
    e = ⟨patNr + 1, 2, -1, -1⟩ :=
  fastPatternRows_error_shape ch typeT patNr _ _ m hs e h

theorem checkRow_error_shape (ch : StuckChip) (typeT : Nat) (tbl : Nat → Nat) (m : Mem)
    (cols row patNr check : Nat) (hs : Halves) (e : ErrorCall)
    (h : checkRow_16Pin ch typeT tbl m cols row patNr check hs = .error e) :
    e = ⟨patNr + 1, check, -1, -1⟩ := by
  simp only [checkRow_16Pin] at h
  split at h
  · split at h
    · exact absurd h (by simp)
    · injection h with h'
      exact h'.symm
  · exact absurd h (by simp)

theorem checkRowsFold_error_shape (ch : StuckChip) (typeT : Nat) (tbl : Nat → Nat)
    (m : Mem) (cols patNr check : Nat) :
    ∀ (targets : List Nat) (hs : Halves) (e : ErrorCall),
    checkRowsFold ch typeT tbl m cols patNr check hs targets = .error e →
    e = ⟨patNr + 1, check, -1, -1⟩ := by
  intro targets
  induction targets with
  | nil => intro hs e h; exact absurd h (by simp [checkRowsFold])
  | cons r rest ih =>
    intro hs e h
    rw [checkRowsFold] at h
    cases hc : checkRow_16Pin ch typeT tbl m cols r patNr check hs with
    | ok hs' =>
      rw [hc] at h
      simp only [] at h
      exact ih hs' e h
    | error e' =>
      rw [hc] at h
      simp only [] at h
      injection h with h'
      subst h'
      exact checkRow_error_shape ch typeT tbl m cols r patNr check hs e' hc

theorem writeRow_error_shape (ch : StuckChip) (typeT : Nat) (tbl : Nat → Nat) (m : Mem)
    (row cols patNr : Nat) (hs : Halves) (e : ErrorCall)
    (h : writeRow_16Pin ch typeT tbl m row cols patNr hs = .error e) :
    e = ⟨patNr + 1, 3, -1, -1⟩ := by
  simp only [writeRow_16Pin] at h
  cases hc : checkRowsFold ch typeT tbl (applyWrites ch m (wrWriteList tbl cols row))
      cols patNr 3 hs (retChecksIn (ramDef typeT).rows (ramDef typeT).delayRows row) with
  | ok hs' =>
    rw [hc] at h
    simp only [] at h
    exact absurd h (by simp)
  | error e' =>
    rw [hc] at h
    simp only [] at h
    injection h with h'
    subst h'
    exact checkRowsFold_error_shape ch typeT tbl _ cols patNr 3 _ hs e' hc


set_option maxRecDepth 16384 in
/-- Claim C9 counterexample: the claim states that on a real pattern
fault the engine passes the failing row and column to `error()`.  It
does not: the C call sites are `error(patNr + 1, 2)` and
`error(patNr + 1, check)`, leaving row and col at their default -1.  On
an all-stuck 41256 chip, pattern 1 finds its first mismatch at row 0,
yet the error call carries row = col = -1, which is no valid (Nat) row
or column index at all. -/
theorem claim_C9_counterexample :
    fastPatternTest_16Pin allStuckChip T_41256 1 memAllFalse (0, 0) =
      .error ⟨2, 2, -1, -1⟩ ∧
    ((-1 : Int) < 0 ∧ ∀ r : Nat, (-1 : Int) ≠ (r : Int)) := by
  refine ⟨rfl, by norm_num, ?_⟩
  intro r
  omega

/-- Claim C9 (amended): whenever a pattern or retention cell mismatch is
a real fault (not a swallowed half-good error), the engine invokes
`error` with code = pattern index + 1 and kind 2 (pattern fault, from
`fastPatternTest_16Pin`) or the caller's check kind — 3 (retention
fault) for every `checkRow_16Pin` call made by `writeRow_16Pin` — while
the failing row and column are NOT passed (they stay at the default -1);
and `error()` never returns control to its caller: for every code and
kind its final signalling loop runs forever. -/
theorem claim_C9_error_calls :
    (∀ (ch : StuckChip) (typeT patNr : Nat) (m : Mem) (hs : Halves) (e : ErrorCall),
      fastPatternTest_16Pin ch typeT patNr m hs = .error e →
      e = ⟨patNr + 1, 2, -1, -1⟩) ∧
    (∀ (ch : StuckChip) (typeT : Nat) (tbl : Nat → Nat) (m : Mem)
      (cols row patNr check : Nat) (hs : Halves) (e : ErrorCall),
      checkRow_16Pin ch typeT tbl m cols row patNr check hs = .error e →
      e = ⟨patNr + 1, check, -1, -1⟩) ∧
    (∀ (ch : StuckChip) (typeT : Nat) (tbl : Nat → Nat) (m : Mem)
      (row cols patNr : Nat) (hs : Halves) (e : ErrorCall),
      writeRow_16Pin ch typeT tbl m row cols patNr hs = .error e →
      e = ⟨patNr + 1, 3, -1, -1⟩) ∧
    (∀ code err fuel : Nat, error_run code err fuel = none) :=
  ⟨fastPatternTest_error_shape, checkRow_error_shape, writeRow_error_shape,
   fun _ _ fuel => errorLoopRun_none fuel⟩

set_option maxRecDepth 16384 in
/-- Witness for C9 at a concrete erroring run. -/
theorem claim_C9_witness :
    (⟨2, 2, -1, -1⟩ : ErrorCall) = ⟨1 + 1, 2, -1, -1⟩ ∧ error_run 3 2 9 = none :=
  ⟨claim_C9_error_calls.1 allStuckChip T_41256 1 memAllFalse (0, 0) ⟨2, 2, -1, -1⟩ rfl,
   claim_C9_error_calls.2.2.2 3 2 9⟩
